import Mathlib

/-!
Verification of the combat-log parsing module (clp.py).

The definitions below are a shallow embedding of the source: strings are
Lean strings (processed as lists of characters), Python integers are Int,
fallible Python code (code that raises) is modelled with Option or Except,
and the logging side channel is dropped (it never alters a returned value).
-/

/-- View of Except as a sum, to transfer decidable equality. -/
def exceptToSum {ε α : Type} : Except ε α → ε ⊕ α
  | .error e => .inl e
  | .ok a => .inr a

instance {ε α : Type} [DecidableEq ε] [DecidableEq α] : DecidableEq (Except ε α) :=
  fun x y =>
    decidable_of_iff (exceptToSum x = exceptToSum y)
      (by cases x <;> cases y <;> simp [exceptToSum])

namespace Clp

/-- Python whitespace characters stripped by str.strip() (ASCII subset). -/
def pyIsSpace (c : Char) : Bool :=
  c = ' ' || c = '\t' || c = '\n' || c = '\r' || c = '\x0b' || c = '\x0c'

/-- Strip characters satisfying p from both ends of a character list,
modelling Python str.strip() / str.strip(chars). -/
def stripBoth (p : Char → Bool) (l : List Char) : List Char :=
  ((l.dropWhile p).reverse.dropWhile p).reverse

/-- Model of str.strip() on a Lean string. -/
def pyStrip (s : String) : String :=
  String.mk (stripBoth pyIsSpace s.data)

/-- Model of .strip().strip(chr(34)) used on event fields: whitespace first,
then any run of double quotes at either end. -/
def stripQuotes (s : String) : String :=
  String.mk (stripBoth (fun c => c = '"') (stripBoth pyIsSpace s.data))

/-- Decimal digit value of a character, if any. -/
def decVal (c : Char) : Option Nat :=
  if 48 ≤ c.toNat ∧ c.toNat ≤ 57 then some (c.toNat - 48) else none

/-- Hexadecimal digit value of a character, if any. -/
def hexVal (c : Char) : Option Nat :=
  if 48 ≤ c.toNat ∧ c.toNat ≤ 57 then some (c.toNat - 48)
  else if 97 ≤ c.toNat ∧ c.toNat ≤ 102 then some (c.toNat - 87)
  else if 65 ≤ c.toNat ∧ c.toNat ≤ 70 then some (c.toNat - 55)
  else none

/-- Octal digit value of a character, if any. -/
def octVal (c : Char) : Option Nat :=
  if 48 ≤ c.toNat ∧ c.toNat ≤ 55 then some (c.toNat - 48) else none

/-- Binary digit value of a character, if any. -/
def binVal (c : Char) : Option Nat :=
  if c = '0' then some 0 else if c = '1' then some 1 else none

/-- Digit-run scanner shared by all int() bases: after the first digit,
single underscores may separate digits (Python numeric literal grammar). -/
def digitsGo (dval : Char → Option Nat) (base : Nat) : Nat → List Char → Option Nat
  | acc, [] => some acc
  | acc, c :: rest =>
    if c = '_' then
      match rest with
      | [] => none
      | c2 :: rs =>
        match dval c2 with
        | some d => digitsGo dval base (acc * base + d) rs
        | none => none
    else
      match dval c with
      | some d => digitsGo dval base (acc * base + d) rest
      | none => none

/-- Parse a non-empty digit run (no leading or trailing underscore,
no doubled underscore), as Python int() accepts after sign and prefix. -/
def parseDigits (dval : Char → Option Nat) (base : Nat) (l : List Char) : Option Nat :=
  match l with
  | [] => none
  | c :: rest =>
    match dval c with
    | some d => digitsGo dval base d rest
    | none => none

/-- Consume an optional single sign character; returns (isNegative, rest). -/
def readSign : List Char → (Bool × List Char)
  | [] => (false, [])
  | c :: r =>
    if c = '-' then (true, r)
    else if c = '+' then (false, r)
    else (false, c :: r)

/-- Digit part after a radix marker: Python allows one underscore directly
after the marker, as in int with value 0x_ff. -/
def prefixedDigits (dval : Char → Option Nat) (base : Nat) : List Char → Option Nat
  | '_' :: rest => parseDigits dval base rest
  | l => parseDigits dval base l

/-- Apply a sign to a parsed magnitude. -/
def applySign (neg : Bool) (v : Nat) : Int :=
  if neg then -(v : Int) else (v : Int)

/-- Model of Python int(s, 10) (the one-argument int(s) call):
optional surrounding whitespace, optional sign, decimal digits with
underscore separators; leading zeros are allowed in base 10. -/
def pyIntBase10L (l : List Char) : Option Int :=
  let l := stripBoth pyIsSpace l
  let (neg, l) := readSign l
  match parseDigits decVal 10 l with
  | some v => some (applySign neg v)
  | none => none

/-- Core of Python int(s, 0): auto-detected radix. A 0x/0o/0b marker selects
hex/octal/binary; otherwise the literal is decimal, and a literal starting
with the digit 0 is only accepted when its value is zero. -/
def pyIntBase0Body (neg : Bool) (l : List Char) : Option Int :=
  match l with
  | c1 :: c2 :: rest =>
    if c1 = '0' then
      if c2 = 'x' ∨ c2 = 'X' then (prefixedDigits hexVal 16 rest).map (applySign neg)
      else if c2 = 'o' ∨ c2 = 'O' then (prefixedDigits octVal 8 rest).map (applySign neg)
      else if c2 = 'b' ∨ c2 = 'B' then (prefixedDigits binVal 2 rest).map (applySign neg)
      else
        match parseDigits decVal 10 (c1 :: c2 :: rest) with
        | some v => if v = 0 then some (applySign neg 0) else none
        | none => none
    else
      match parseDigits decVal 10 (c1 :: c2 :: rest) with
      | some v => some (applySign neg v)
      | none => none
  | _ =>
    match parseDigits decVal 10 l with
    | some v => some (applySign neg v)
    | none => none

/-- Model of Python int(s, 0) on a character list. -/
def pyIntBase0L (l : List Char) : Option Int :=
  let l := stripBoth pyIsSpace l
  let (neg, l) := readSign l
  pyIntBase0Body neg l

/-- Model of Python int(s, 0) on a string. -/
def pyIntBase0 (s : String) : Option Int :=
  pyIntBase0L s.data

/-- Model of Python int(s) (base 10) on a string. -/
def pyIntBase10 (s : String) : Option Int :=
  pyIntBase10L s.data

/-- UnitGuid.__int__: int(str(self).strip(), base=0); none models the
ValueError raised on an unparsable guid string. -/
def UnitGuid.toIntE (s : String) : Option Int :=
  pyIntBase0L (stripBoth pyIsSpace s.data)

/-- UnitGuid.to_int: value of int(self), with the ValueError caught,
logged and replaced by 0. -/
def UnitGuid.to_int (s : String) : Int :=
  match UnitGuid.toIntE s with
  | some n => n
  | none => 0

/-! ## Open string enums (StrEnumParser and its four concrete enums) -/

/-- One enum member: its Python _name_ and its _value_ (a str subclass,
so the member displays as its value). -/
structure EnumMember where
  name : String
  value : String
  deriving DecidableEq, Repr

/-- The _value2member_map_ of a StrEnumParser class: insertion-ordered
association list from value string to member. -/
abbrev EnumMap := List (String × EnumMember)

/-- Association-list lookup, modelling dict.get(value, None). -/
def assocFind (m : EnumMap) (k : String) : Option EnumMember :=
  (m.find? (fun p => p.1 = k)).map (fun p => p.2)

/-- A word character for the regex class used by value_to_name,
restricted to ASCII (letter, digit or underscore). On ASCII text this
coincides with the Unicode word class the source regex uses; on
non-ASCII text it does not (CPython keeps Unicode word characters such
as the one-half sign, and the identifier double-check below can then
fail), so every theorem about the unknown-tag transform quantifies only
over ASCII tag strings. -/
def isWordChar (c : Char) : Bool :=
  decide ((65 ≤ c.toNat ∧ c.toNat ≤ 90) ∨ (97 ≤ c.toNat ∧ c.toNat ≤ 122) ∨
    (48 ≤ c.toNat ∧ c.toNat ≤ 57) ∨ c.toNat = 95)

/-- Replace every maximal run of non-word characters by one underscore;
the Boolean records whether the previous character was inside such a run. -/
def collapseRuns : List Char → Bool → List Char
  | [], _ => []
  | c :: t, inRun =>
    if isWordChar c then c :: collapseRuns t false
    else
      match inRun with
      | true => collapseRuns t true
      | false => '_' :: collapseRuns t true

/-- Is the first character a digit (the leading-digit guard of the regex)? -/
def headIsDigit : List Char → Bool
  | [] => false
  | c :: _ => decide (48 ≤ c.toNat ∧ c.toNat ≤ 57)

/-- StrEnumParser.value_to_name without its final identifier check: the
regex substitution (non-word runs to underscore, underscore guard before a
leading digit) followed by upper(). -/
def valueToNameRaw (s : String) : String :=
  String.mk
    ((if headIsDigit s.data then '_' :: collapseRuns s.data false
      else collapseRuns s.data false).map Char.toUpper)

/-- A character that may start an identifier (ASCII): letter or underscore. -/
def isIdentStart (c : Char) : Bool :=
  decide ((65 ≤ c.toNat ∧ c.toNat ≤ 90) ∨ (97 ≤ c.toNat ∧ c.toNat ≤ 122) ∨ c.toNat = 95)

/-- ASCII restriction of str.isidentifier() for the double-check in
value_to_name; exact on ASCII strings, which is the only domain the
theorems below use it on. -/
def isPyIdent : List Char → Bool
  | [] => false
  | c :: t => isIdentStart c && t.all isWordChar

/-- StrEnumParser.value_to_name: the transformed name, or none for the
ValueError raised when the result is not an identifier. Exact on ASCII
input; for non-ASCII input CPython can keep characters this model
collapses and can raise where this model succeeds, so statements about
it carry an ASCII hypothesis. -/
def value_to_name (s : String) : Option String :=
  let nm := valueToNameRaw s
  if isPyIdent nm.data then some nm else none

/-- StrEnumParser.pseudo_member: return the cached member for this value
if one exists, otherwise synthesize a member named by value_to_name and
cache it; none models the ValueError escaping value_to_name. -/
def pseudo_member (m : EnumMap) (v : String) : Option (EnumMember × EnumMap) :=
  match assocFind m v with
  | some mem => some (mem, m)
  | none =>
    match value_to_name v with
    | some nm => some (⟨nm, v⟩, m ++ [(v, ⟨nm, v⟩)])
    | none => none

/-- MissType declared members, as value-to-member map in declaration order. -/
def missTypeMembers : EnumMap :=
  ["MISS", "DODGE", "PARRY", "IMMUNE", "ABSORB", "BLOCK", "DEFLECT",
   "EVADE", "REFLECT", "RESIST"].map (fun s => (s, ⟨s, s⟩))

/-- AuraType declared members. -/
def auraTypeMembers : EnumMap :=
  ["BUFF", "DEBUFF"].map (fun s => (s, ⟨s, s⟩))

/-- EnvironmentalType declared members. -/
def envTypeMembers : EnumMap :=
  ["DROWNING", "FALLING", "FATIGUE", "FIRE", "LAVA", "SLIME"].map (fun s => (s, ⟨s, s⟩))

/-- FailedType declared members (name and value differ here). -/
def failedTypeMembers : EnumMap :=
  [("Interrupted", ⟨"INTERRUPTED", "Interrupted"⟩),
   ("Not yet recovered", ⟨"NOT_RECOVERED", "Not yet recovered"⟩),
   ("No target", ⟨"NO_TARGET", "No target"⟩),
   ("Invalid target", ⟨"INVALID_TARGET", "Invalid target"⟩),
   ("Item is not ready yet", ⟨"ITEM_NOT_READY", "Item is not ready yet"⟩),
   ("Another action is in progress", ⟨"ACTION_IN_PROGRESS", "Another action is in progress"⟩),
   ("Out of range", ⟨"OUT_OF_RANGE", "Out of range"⟩)]

/-! ## Int flags (IntFlagParser) -/

/-- A parsed IntFlag value. Both UnitFlag and SchoolFlag keep every bit of
the underlying integer (IntFlag keeps bits not covered by named members),
so the model stores the integer itself. -/
structure FlagVal where
  val : Int
  deriving DecidableEq, Repr

/-- IntFlagParser.from_literal: cls(int(literal, 0)); none models the
ValueError when the literal does not parse. -/
def IntFlagParser.from_literal (s : String) : Option FlagVal :=
  (pyIntBase0 s).map FlagVal.mk

/-- Integer view of a flag value (int(flag)). -/
def FlagVal.toInt (f : FlagVal) : Int := f.val

/-- The declared UnitFlag members (name, bit value). -/
def unitFlagMembers : List (String × Nat) :=
  [("AFFILIATION_MINE", 0x00000001), ("AFFILIATION_PARTY", 0x00000002),
   ("AFFILIATION_RAID", 0x00000004), ("AFFILIATION_OUTSIDER", 0x00000008),
   ("REACTION_FRIENDLY", 0x00000010), ("REACTION_NEUTRAL", 0x00000020),
   ("REACTION_HOSTILE", 0x00000040), ("REACTION_UNKNOWN_FLAG", 0x00000080),
   ("CONTROL_PLAYER", 0x00000100), ("CONTROL_NPC", 0x00000200),
   ("TYPE_PLAYER", 0x00000400), ("TYPE_NPC", 0x00000800),
   ("TYPE_PET", 0x00001000), ("TYPE_GUARDIAN", 0x00002000),
   ("TYPE_OBJECT", 0x00004000), ("TYPE_UNKNOWN_FLAG", 0x00008000),
   ("TARGET", 0x00010000), ("FOCUS", 0x00020000),
   ("MAINTANK", 0x00040000), ("MAINASSIST", 0x00080000),
   ("RAIDTARGET1", 0x00100000), ("RAIDTARGET2", 0x00200000),
   ("RAIDTARGET3", 0x00400000), ("RAIDTARGET4", 0x00800000),
   ("RAIDTARGET5", 0x01000000), ("RAIDTARGET6", 0x02000000),
   ("RAIDTARGET7", 0x04000000), ("RAIDTARGET8", 0x08000000),
   ("SPECIAL_UNKNOWN_FLAG_0x10000000", 0x10000000),
   ("SPECIAL_UNKNOWN_FLAG_0x20000000", 0x20000000),
   ("SPECIAL_UNKNOWN_FLAG_0x40000000", 0x40000000),
   ("NONE", 0x80000000)]

/-- Union of all named UnitFlag bits. -/
def unitFlagNamedMask : Nat :=
  unitFlagMembers.foldl (fun acc p => acc ||| p.2) 0

/-! ## Data containers (Unit, CombatLogEvent) -/

/-- Unit record after __post_init__: guid kept as its string, flags as the
integer parsed from the flags literal. -/
structure UnitRec where
  guid : String
  name : String
  flags : Int
  deriving DecidableEq, Repr

/-- CombatLogEvent record. The timestamp is modelled as integer epoch
milliseconds (the float seconds value carries the same information). -/
structure CombatLogEvent where
  timestamp : Int
  name : String
  source : Option UnitRec := none
  dest : Option UnitRec := none
  params : List String := []
  deriving DecidableEq, Repr

/-! ## Parsed values and error taxonomy -/

/-- Typed values appearing in the parsed output dict. -/
inductive PValue where
  | int (n : Int)
  | str (s : String)
  | bool (b : Bool)
  | school (n : Int)
  | power (n : Int)
  | enumM (m : EnumMember)
  | strList (l : List String)
  | num (t : Int)
  | unitV (u : Option UnitRec)
  deriving DecidableEq, Repr

/-- Exception categories raised by the module. lookupError models
ParsingLookupError and duplicateField the plain ParsingError raise; the
others model ValueError / IndexError, which are not ParsingError. -/
inductive PErr where
  | malformedLine
  | badTimeFormat
  | tokenizeError
  | indexError
  | castError
  | lookupError (event : String)
  | duplicateField (name : String)
  deriving DecidableEq, Repr

/-- Which exceptions the bare except ParsingError clause catches. -/
def PErr.isParsingErr : PErr → Bool
  | .lookupError _ => true
  | .duplicateField _ => true
  | _ => false

/-- The parsed output dict: insertion-ordered string-keyed map. -/
abbrev Pdict := List (String × PValue)

/-- Membership test, modelling the Python expression (name in dict). -/
def dmem (d : Pdict) (k : String) : Bool :=
  d.any (fun p => p.1 = k)

/-- Lookup, modelling dict[k] where present. -/
def dget (d : Pdict) (k : String) : Option PValue :=
  (d.find? (fun p => p.1 = k)).map (fun p => p.2)

/-- Assignment dict[k] = v: updates in place if the key exists,
appends otherwise (Python dicts keep insertion order). -/
def dset (d : Pdict) (k : String) (v : PValue) : Pdict :=
  if dmem d k then d.map (fun p => if p.1 = k then (k, v) else p)
  else d ++ [(k, v)]

/-- dict.pop(k, None): drop the binding for k if present. -/
def dpop (d : Pdict) (k : String) : Pdict :=
  d.filter (fun p => p.1 ≠ k)

/-! ## Casters -/

/-- The closed set of caster callables appearing in the schema tables. -/
inductive CasterTag where
  | cInt
  | cStr
  | cSchool
  | cPower
  | cNotNil
  | cMiss
  | cAura
  | cFailed
  | cEnv
  deriving DecidableEq, Repr

/-- A StrEnumParser class called as a caster: cached or synthesized member
(the class-level cache only ever maps a value to the member determined by
that value, so the returned member is a pure function of the input). -/
def strEnumCast (m : EnumMap) (s : String) : Except PErr PValue :=
  match pseudo_member m s with
  | some p => .ok (.enumM p.1)
  | none => .error .castError

/-- Apply one caster to one raw parameter string. -/
def applyCaster : CasterTag → String → Except PErr PValue
  | .cInt, s =>
    match pyIntBase10 s with
    | some n => .ok (.int n)
    | none => .error .castError
  | .cStr, s => .ok (.str s)
  | .cSchool, s =>
    match pyIntBase0 s with
    | some n => .ok (.school n)
    | none => .error .castError
  | .cPower, s =>
    match pyIntBase0 s with
    | some n => if -2 ≤ n ∧ n ≤ 6 then .ok (.power n) else .error .castError
    | none => .error .castError
  | .cNotNil, s => .ok (.bool (s ≠ "nil"))
  | .cMiss, s => strEnumCast missTypeMembers s
  | .cAura, s => strEnumCast auraTypeMembers s
  | .cFailed, s => strEnumCast failedTypeMembers s
  | .cEnv, s => strEnumCast envTypeMembers s

/-! ## Schema tables (EventParamsParser class variables) -/

/-- A FieldsDict: ordered field-name / caster pairs. -/
abbrev Schema := List (String × CasterTag)

def SpellParser : Schema :=
  [("spellId", .cInt), ("spellName", .cStr), ("spellSchool", .cSchool)]

def EnvParser : Schema :=
  [("environmentalType", .cEnv)]

def DamageParser : Schema :=
  [("amount", .cInt), ("overkill", .cInt), ("school", .cSchool),
   ("resisted", .cInt), ("blocked", .cInt), ("absorbed", .cInt),
   ("critical", .cNotNil), ("glancing", .cNotNil), ("crushing", .cNotNil)]

def MissParser : Schema :=
  [("missType", .cMiss), ("amountMissed", .cInt)]

def HealParser : Schema :=
  [("amount", .cInt), ("overhealing", .cInt), ("absorbed", .cInt),
   ("critical", .cNotNil)]

def EnergizeParser : Schema :=
  [("amount", .cInt), ("powerType", .cPower)]

def DrainParser : Schema :=
  [("amount", .cInt), ("powerType", .cPower), ("extraAmount", .cInt)]

def SpellBlockParser : Schema :=
  [("extraSpellID", .cInt), ("extraSpellName", .cStr),
   ("extraSchool", .cSchool), ("auraType", .cAura)]

def ExtraAttackParser : Schema :=
  [("amount", .cInt)]

def AuraParser : Schema :=
  [("auraType", .cAura)]

def AuraDoseParser : Schema :=
  [("auraType", .cAura), ("amount", .cInt)]

def CastFailedParser : Schema :=
  [("failedType", .cFailed)]

def EnchantParser : Schema :=
  [("spellName", .cStr), ("itemID", .cInt), ("itemName", .cStr)]

/-- prefix_parsers, in declaration order. -/
def prefix_parsers : List (String × Schema) :=
  [("SWING", []),
   ("RANGE", SpellParser),
   ("SPELL", SpellParser),
   ("SPELL_PERIODIC", SpellParser),
   ("SPELL_BUILDING", SpellParser),
   ("ENVIRONMENTAL", EnvParser)]

/-- suffix_parsers, in declaration order. -/
def suffix_parsers : List (String × Schema) :=
  [("_DAMAGE", DamageParser),
   ("_MISSED", MissParser),
   ("_HEAL", HealParser),
   ("_HEAL_ABSORBED", []),
   ("_ABSORBED", []),
   ("_ENERGIZE", EnergizeParser),
   ("_DRAIN", DrainParser),
   ("_LEECH", DrainParser),
   ("_INTERRUPT", SpellBlockParser),
   ("_DISPEL", SpellBlockParser),
   ("_DISPEL_FAILED", SpellBlockParser),
   ("_STOLEN", SpellBlockParser),
   ("_EXTRA_ATTACKS", ExtraAttackParser),
   ("_AURA_APPLIED", AuraParser),
   ("_AURA_REMOVED", AuraParser),
   ("_AURA_APPLIED_DOSE", AuraDoseParser),
   ("_AURA_REMOVED_DOSE", AuraDoseParser),
   ("_AURA_REFRESH", AuraParser),
   ("_AURA_BROKEN", AuraParser),
   ("_AURA_BROKEN_SPELL", SpellBlockParser),
   ("_CAST_START", []),
   ("_CAST_SUCCESS", []),
   ("_CAST_FAILED", CastFailedParser),
   ("_INSTAKILL", []),
   ("_DURABILITY_DAMAGE", []),
   ("_DURABILITY_DAMAGE_ALL", []),
   ("_CREATE", []),
   ("_SUMMON", []),
   ("_RESURRECT", [])]

/-- special_parsers: exact-name events with both field lists given. -/
def special_parsers : List (String × (Schema × Schema)) :=
  [("DAMAGE_SPLIT", (SpellParser, DamageParser)),
   ("DAMAGE_SHIELD", (SpellParser, DamageParser)),
   ("DAMAGE_SHIELD_MISSED", (SpellParser, MissParser)),
   ("ENCHANT_APPLIED", (EnchantParser, [])),
   ("ENCHANT_REMOVED", (EnchantParser, [])),
   ("PARTY_KILL", ([], [])),
   ("UNIT_DIED", ([], [])),
   ("UNIT_DESTROYED", ([], [])),
   ("UNIT_DISSIPATES", ([], []))]

/-- Table lookup by key (dict.get on the class tables). -/
def lookupTbl {α : Type} (tbl : List (String × α)) (k : String) : Option α :=
  (tbl.find? (fun p => p.1 = k)).map (fun p => p.2)

/-! ## Schema resolution (EventParamsParser.parse, stage 1) -/

/-- The prefix keys that are literal string-startswith matches of an
event name, in table order. -/
def prefixKeyMatches (event : String) : List String :=
  (prefix_parsers.map (fun p => p.1)).filter
    (fun k => k.data.isPrefixOf event.data)

/-- Python max(xs, key=len): first element of maximal length. -/
def pyMaxLen : List String → Option String
  | [] => none
  | x :: xs => some (xs.foldl (fun acc y => if acc.length < y.length then y else acc) x)

/-- Drop the first n characters of a string (Python slicing). -/
def strDropN (s : String) (n : Nat) : String :=
  String.mk (s.data.drop n)

/-- Schema resolution: longest matching prefix key plus suffix lookup on
the remainder; the special table is consulted only when no prefix key
matches; none when either field list is missing. -/
def resolveSchema (event : String) : Option (Schema × Schema) :=
  match pyMaxLen (prefixKeyMatches event) with
  | some p =>
    match lookupTbl prefix_parsers p, lookupTbl suffix_parsers (strDropN event p.length) with
    | some pf, some sf => some (pf, sf)
    | _, _ => none
  | none => lookupTbl special_parsers event

/-! ## Positional decoding (EventParamsParser.parse, stages 2 and 3) -/

/-- The zip loop over chained (field, caster) pairs and raw params:
duplicate names raise, caster results are assigned in order, and the
count of consumed params is returned with the dict. -/
def decodeLoop : Schema → List String → Pdict → Nat → Except PErr (Pdict × Nat)
  | [], _, d, k => .ok (d, k)
  | _ :: _, [], d, k => .ok (d, k)
  | (nm, c) :: fs, p :: ps, d, k =>
    if dmem d nm then .error (.duplicateField nm)
    else
      match applyCaster c p with
      | .ok v => decodeLoop fs ps (dset d nm v) (k + 1)
      | .error e => .error e

/-- Leftover accounting after the zip loop: a non-empty tail of unparsed
params is stored under the reserved key, otherwise any binding of that
key is removed. -/
def finishParams (d : Pdict) (paramsLeft : List String) : Pdict :=
  if paramsLeft.isEmpty then dpop d "params"
  else dset d "params" (.strList paramsLeft)

/-- Stages 2 and 3 of parse: run the zip loop over the concatenated
field list, then apply the leftover accounting to the params the loop
did not consume. -/
def decodeParams (fields : Schema) (parsed0 : Pdict) (params : List String) :
    Except PErr Pdict :=
  match decodeLoop fields params parsed0 0 with
  | .error e => .error e
  | .ok (d, k) => .ok (finishParams d (params.drop k))

/-- EventParamsParser.parse on an event name, an initial parsed dict and
a raw parameter list: resolve the schema, then decode positionally. -/
def parseCore (event : String) (parsed0 : Pdict) (params : List String) :
    Except PErr Pdict :=
  match resolveSchema event with
  | none => .error (.lookupError event)
  | some (pf, sf) => decodeParams (pf ++ sf) parsed0 params

/-- self.event.dict() merged into the fresh parsed dict when the parser
is built from a CombatLogEvent. -/
def eventDict (ev : CombatLogEvent) : Pdict :=
  [("timestamp", .num ev.timestamp), ("name", .str ev.name),
   ("source", .unitV ev.source), ("dest", .unitV ev.dest),
   ("params", .strList ev.params)]

/-- EventParamsParser(event).parse() for a CombatLogEvent input. -/
def parseEvent (ev : CombatLogEvent) : Except PErr Pdict :=
  parseCore ev.name (eventDict ev) ev.params

/-! ## Line tokenization (CombatLogEvent.from_log_line) -/

/-- Does the list contain two consecutive spaces? -/
def hasSep : List Char → Bool
  | [] => false
  | [_] => false
  | a :: b :: t => (a = ' ' && b = ' ') || hasSep (b :: t)

/-- str.split(two spaces, 1): split at the first occurrence of two
consecutive spaces; none models the ValueError of unpacking a
single-element split result. -/
def splitSepOnce : List Char → Option (List Char × List Char)
  | [] => none
  | [_] => none
  | a :: b :: t =>
    if a = ' ' ∧ b = ' ' then some ([], t)
    else (splitSepOnce (b :: t)).map (fun q => (a :: q.1, q.2))

/-- str.rsplit(dot, 1): split at the last occurrence of the dot;
none when the character does not occur. -/
def rsplitLast (sep : Char) (l : List Char) : Option (List Char × List Char) :=
  match (l.reverse).findIdx? (fun c => c = sep) with
  | none => none
  | some i => some (((l.reverse).drop (i + 1)).reverse, ((l.reverse).take i).reverse)

/-- Read one or two digits, greedily (strptime numeric directives). -/
def readNat12 : List Char → Option (Nat × List Char)
  | [] => none
  | c1 :: rest =>
    match decVal c1 with
    | none => none
    | some d1 =>
      match rest with
      | c2 :: rest2 =>
        match decVal c2 with
        | some d2 => some (d1 * 10 + d2, rest2)
        | none => some (d1, rest)
      | [] => some (d1, [])

/-- Expect one literal character. -/
def expectChar (c : Char) : List Char → Option (List Char)
  | x :: rest => if x = c then some rest else none
  | [] => none

/-- Day count of each month in the fixed placeholder year 1970. -/
def daysInMonth (m : Nat) : Nat :=
  if m = 2 then 28
  else if m = 4 ∨ m = 6 ∨ m = 9 ∨ m = 11 then 30
  else 31

/-- Days of 1970 before the first of month m. -/
def daysBefore (m : Nat) : Nat :=
  (List.range (m - 1)).foldl (fun acc i => acc + daysInMonth (i + 1)) 0

/-- strptime of the datetime part against format month/day
hour:minute:second in year 1970, validated, yielding epoch seconds. -/
def parseMDHMS (l : List Char) : Option Nat :=
  match readNat12 l with
  | none => none
  | some (mo, l) =>
    match expectChar '/' l with
    | none => none
    | some l =>
      match readNat12 l with
      | none => none
      | some (da, l) =>
        match expectChar ' ' l with
        | none => none
        | some l =>
          match readNat12 l with
          | none => none
          | some (ho, l) =>
            match expectChar ':' l with
            | none => none
            | some l =>
              match readNat12 l with
              | none => none
              | some (mi, l) =>
                match expectChar ':' l with
                | none => none
                | some l =>
                  match readNat12 l with
                  | none => none
                  | some (se, l) =>
                    if l = [] ∧ 1 ≤ mo ∧ mo ≤ 12 ∧ 1 ≤ da ∧ da ≤ daysInMonth mo ∧
                        ho ≤ 23 ∧ mi ≤ 59 ∧ se ≤ 59 then
                      some ((((daysBefore mo + (da - 1)) * 24 + ho) * 60 + mi) * 60 + se)
                    else none

/-- States of the posix shlex scanner configured with comma as the only
whitespace class and whitespace_split set. -/
inductive ShState where
  | word
  | squote
  | dquote
  | escWord
  | escDquote
  deriving DecidableEq, Repr

/-- One shlex token boundary: emit the accumulated token if it is
non-empty or came from quotes. -/
def shEmit (tok : List Char) (quoted : Bool) (acc : List String) : List String :=
  if tok.isEmpty ∧ ¬quoted then acc else acc ++ [String.mk tok]

/-- The posix shlex scanner: comma separates tokens, single and double
quotes group (double quotes honour backslash escapes of the quote and the
backslash), a bare backslash escapes the next character, and the default
hash commenter discards the rest of the line. The between-tokens state is
word with an empty token (empty unquoted tokens are not emitted).
None models the ValueError for an unterminated quote or escape. -/
def shlexRun : List Char → ShState → List Char → Bool → List String → Option (List String)
  | [], st, tok, quoted, acc =>
    match st with
    | .word => some (shEmit tok quoted acc)
    | _ => none
  | c :: rest, st, tok, quoted, acc =>
    match st with
    | .word =>
      if c = ',' then shlexRun rest .word [] false (shEmit tok quoted acc)
      else if c = '#' then some (shEmit tok quoted acc)
      else if c = '\'' then shlexRun rest .squote tok true acc
      else if c = '"' then shlexRun rest .dquote tok true acc
      else if c = '\\' then shlexRun rest .escWord tok quoted acc
      else shlexRun rest .word (tok ++ [c]) quoted acc
    | .squote =>
      if c = '\'' then shlexRun rest .word tok quoted acc
      else shlexRun rest .squote (tok ++ [c]) quoted acc
    | .dquote =>
      if c = '"' then shlexRun rest .word tok quoted acc
      else if c = '\\' then shlexRun rest .escDquote tok quoted acc
      else shlexRun rest .dquote (tok ++ [c]) quoted acc
    | .escWord => shlexRun rest .word (tok ++ [c]) quoted acc
    | .escDquote =>
      if c = '\\' ∨ c = '"' then shlexRun rest .dquote (tok ++ [c]) quoted acc
      else shlexRun rest .dquote (tok ++ ['\\', c]) quoted acc

/-- list(shlex(eventstr)) with whitespace set to comma, posix mode and
whitespace_split: the event-section field list. -/
def shlexSplit (l : List Char) : Option (List String) :=
  shlexRun l .word [] false []

/-- The tokenization stage of from_log_line: strip the line, split
timestamp from event section on two spaces, parse the timestamp
(epoch milliseconds), and shlex-split the event section. -/
def tokenizeLine (line : String) : Except PErr (Int × List String) :=
  match splitSepOnce (stripBoth pyIsSpace line.data) with
  | none => .error .malformedLine
  | some (dts, evs) =>
    match rsplitLast '.' dts with
    | none => .error .badTimeFormat
    | some (dt, ms) =>
      match parseMDHMS dt, pyIntBase10L ms with
      | some secs, some msI =>
        match shlexSplit evs with
        | none => .error .tokenizeError
        | some parts => .ok ((secs : Int) * 1000 + msI, parts)
      | _, _ => .error .badTimeFormat

/-- Unit(...) construction: the guid and name strings are kept and the
flags literal must parse with auto radix (a failing literal raises). -/
def mkUnit (guid nm flagsLit : String) : Except PErr UnitRec :=
  match IntFlagParser.from_literal flagsLit with
  | some f => .ok ⟨guid, nm, f.val⟩
  | none => .error .castError

/-- The record-building stage of from_log_line: fewer than seven fields
yields the degraded record with only timestamp and name; otherwise the
six actor fields are stripped of whitespace and quotes and the two Unit
values are built, with the rest as the raw parameter tail. -/
def buildEvent (ts : Int) (parts : List String) : Except PErr CombatLogEvent :=
  match parts with
  | [] => .error .indexError
  | p0 :: f1 :: f2 :: f3 :: f4 :: f5 :: f6 :: ps =>
    match mkUnit (stripQuotes f1) (stripQuotes f2) (stripQuotes f3),
        mkUnit (stripQuotes f4) (stripQuotes f5) (stripQuotes f6) with
    | .ok src, .ok dst =>
      .ok ⟨ts, pyStrip p0, some src, some dst, ps.map stripQuotes⟩
    | .error e, _ => .error e
    | _, .error e => .error e
  | p0 :: _ => .ok ⟨ts, pyStrip p0, none, none, []⟩

/-- CombatLogEvent.from_log_line. -/
def from_log_line (line : String) : Except PErr CombatLogEvent :=
  match tokenizeLine line with
  | .error e => .error e
  | .ok (ts, parts) => buildEvent ts parts

/-- EventParamsParser(CombatLogEvent.from_log_line(line)).parse():
the composition before any exception handling. -/
def parseFullLine (line : String) : Except PErr Pdict :=
  match from_log_line line with
  | .error e => .error e
  | .ok ev => parseEvent ev

/-- parse_combat_log_line: the convenience wrapper; its bare except
ParsingError clause turns lookup and duplicate-field failures into the
untouched empty result dict, while other exceptions propagate. -/
def parse_combat_log_line (line : String) : Except PErr Pdict :=
  match parseFullLine line with
  | .ok d => .ok d
  | .error e => if e.isParsingErr then .ok [] else .error e

/-! ## Specification-side helper predicates used in theorem statements -/

/-- Plain base-ten valuation of a digit string. -/
def natDecimalVal (l : List Char) : Nat :=
  l.foldl (fun a c => a * 10 + (c.toNat - 48)) 0

/-- Every character is a decimal digit. -/
def allDigits (l : List Char) : Bool :=
  l.all (fun c => decide (48 ≤ c.toNat ∧ c.toNat ≤ 57))

/-- Every character of the string is ASCII: the domain on which the
word-class and identifier models above agree with CPython. -/
def allAscii (s : String) : Bool :=
  s.data.all (fun c => decide (c.toNat < 128))

end Clp

namespace Clp

/-- C6: for every flags literal that parses (decimal or 0x-prefixed hex,
any nonnegative value), building the bit-flag value and reading back the
integer view returns exactly the parsed integer; for the literal 0x10a48
the integer view is 0x10a48; and bits outside the union of named UnitFlag
bits (which covers only the low 32 bits) are preserved, as the
0x100000a48 literal shows. -/
theorem c6_flag_roundtrip :
    (∀ (s : String) (n : Int), pyIntBase0 s = some n → 0 ≤ n →
      (IntFlagParser.from_literal s).map FlagVal.toInt = some n)
    ∧ (IntFlagParser.from_literal "0x10a48").map FlagVal.toInt = some 0x10a48
    ∧ (IntFlagParser.from_literal "0x100000a48").map FlagVal.toInt = some 0x100000a48
    ∧ unitFlagNamedMask = 0xFFFFFFFF
    ∧ ((0x100000a48 : Nat) &&& 0xFFFFFFFF ≠ (0x100000a48 : Nat)) := by
  refine ⟨?_, by decide, by decide, by decide, by decide⟩
  intro s n h _
  simp [IntFlagParser.from_literal, h, FlagVal.toInt]

/-- Witness for C6 at the decimal literal 1024. -/
theorem c6_witness :
    (IntFlagParser.from_literal "1024").map FlagVal.toInt = some 1024 :=
  c6_flag_roundtrip.1 "1024" 1024 (by decide) (by decide)

/-- C9: the guid integer view returns the radix-aware parsed value when
the parse succeeds and 0 when it fails (the failure is only logged, never
raised: to_int is total); the compound id Player-1-00000001 yields 0. -/
theorem c9_guid_int_view :
    (∀ (s : String) (n : Int), UnitGuid.toIntE s = some n → UnitGuid.to_int s = n)
    ∧ (∀ s : String, UnitGuid.toIntE s = none → UnitGuid.to_int s = 0)
    ∧ UnitGuid.toIntE "Player-1-00000001" = none
    ∧ UnitGuid.to_int "Player-1-00000001" = 0
    ∧ UnitGuid.to_int "0x10" = 16 ∧ UnitGuid.to_int "123" = 123 := by
  refine ⟨?_, ?_, by decide, by decide, by decide, by decide⟩
  · intro s n h; simp [UnitGuid.to_int, h]
  · intro s h; simp [UnitGuid.to_int, h]

/-- Witness for C9 at the decimal guid 42. -/
theorem c9_witness : UnitGuid.to_int "42" = 42 :=
  c9_guid_int_view.1 "42" 42 (by decide)

/-- C3 counterexample: on a well-formed line with the unknown event name
FOO_BAR_EVENT the underlying parse raises the schema lookup error, yet
the convenience parser returns the empty dict instead of propagating it
(ParsingLookupError is a ParsingError, so the bare except clause catches
it), refuting the claim that schema-lookup failures reach the caller. -/
theorem c3_counterexample :
    parseFullLine "4/21 20:19:34.123  FOO_BAR_EVENT,a,b,0,c,d,0" =
      .error (.lookupError "FOO_BAR_EVENT")
    ∧ parse_combat_log_line "4/21 20:19:34.123  FOO_BAR_EVENT,a,b,0,c,d,0" = .ok [] :=
  ⟨rfl, rfl⟩

/-- C3 (amended): the convenience line parser swallows exactly the
ParsingError categories - schema-lookup failures and duplicate-field
failures - returning an empty mapping for them, while cast failures and
malformed-line or tokenization failures propagate to the caller. -/
theorem c3_swallow_classes :
    ∀ line : String,
      (∀ d, parseFullLine line = .ok d → parse_combat_log_line line = .ok d)
      ∧ (∀ e, parseFullLine line = .error e → e.isParsingErr = true →
          parse_combat_log_line line = .ok [])
      ∧ (∀ e, parseFullLine line = .error e → e.isParsingErr = false →
          parse_combat_log_line line = .error e)
      ∧ (∀ ev, PErr.isParsingErr (.lookupError ev) = true)
      ∧ (∀ nm, PErr.isParsingErr (.duplicateField nm) = true)
      ∧ PErr.isParsingErr .castError = false
      ∧ PErr.isParsingErr .malformedLine = false
      ∧ PErr.isParsingErr .tokenizeError = false := by
  intro line
  refine ⟨?_, ?_, ?_, fun _ => rfl, fun _ => rfl, rfl, rfl, rfl⟩
  · intro d h; simp [parse_combat_log_line, h]
  · intro e h he; simp [parse_combat_log_line, h, he]
  · intro e h he; simp [parse_combat_log_line, h, he]

/-- Witness for C3: a cast failure (non-numeric spellId) is not a
ParsingError and propagates through the convenience parser. -/
theorem c3_witness :
    parse_combat_log_line "4/21 20:19:34.123  SPELL_DAMAGE,a,b,0,c,d,0,xx" =
      .error .castError :=
  (c3_swallow_classes _).2.2.1 .castError rfl rfl

/-- hasSep holds exactly when the list splits around two spaces. -/
theorem hasSep_exists (l : List Char) :
    hasSep l = true ↔ ∃ l1 l2, l = l1 ++ ' ' :: ' ' :: l2 := by
  induction l with
  | nil =>
    simp only [hasSep, Bool.false_eq_true, false_iff]
    rintro ⟨l1, l2, h⟩
    have := congrArg List.length h
    simp at this
    omega
  | cons a t ih =>
    cases t with
    | nil =>
      simp only [hasSep, Bool.false_eq_true, false_iff]
      rintro ⟨l1, l2, h⟩
      have := congrArg List.length h
      simp at this
      omega
    | cons b t2 =>
      simp only [hasSep, Bool.or_eq_true, Bool.and_eq_true, decide_eq_true_eq]
      constructor
      · rintro (⟨ha, hb⟩ | h)
        · exact ⟨[], t2, by rw [ha, hb]; rfl⟩
        · obtain ⟨l1, l2, heq⟩ := ih.mp h
          exact ⟨a :: l1, l2, by rw [heq]; rfl⟩
      · rintro ⟨l1, l2, heq⟩
        cases l1 with
        | nil =>
          simp only [List.nil_append, List.cons.injEq] at heq
          exact Or.inl ⟨heq.1, heq.2.1⟩
        | cons x l1t =>
          simp only [List.cons_append, List.cons.injEq] at heq
          exact Or.inr (ih.mpr ⟨l1t, l2, heq.2⟩)

/-- A successful first split really decomposes the list around the
two-space separator. -/
theorem splitSepOnce_some_eq (l : List Char) (a b : List Char)
    (h : splitSepOnce l = some (a, b)) : l = a ++ ' ' :: ' ' :: b := by
  induction l generalizing a b with
  | nil => simp [splitSepOnce] at h
  | cons x t ih =>
    cases t with
    | nil => simp [splitSepOnce] at h
    | cons y t2 =>
      by_cases hxy : x = ' ' ∧ y = ' '
      · simp only [splitSepOnce, if_pos hxy, Option.some.injEq, Prod.mk.injEq] at h
        rw [← h.1, ← h.2, hxy.1, hxy.2]
        rfl
      · simp only [splitSepOnce, if_neg hxy, Option.map_eq_some'] at h
        obtain ⟨⟨a2, b2⟩, hsplit, heq⟩ := h
        simp only [Prod.mk.injEq] at heq
        have := ih a2 b2 hsplit
        rw [← heq.1, ← heq.2, List.cons_append, ← this]

/-- Stripping yields a contiguous middle piece of the original list. -/
theorem stripBoth_middle (p : Char → Bool) (l : List Char) :
    ∃ l1 l2, l = l1 ++ stripBoth p l ++ l2 := by
  refine ⟨l.takeWhile p, ((l.dropWhile p).reverse.takeWhile p).reverse, ?_⟩
  conv_lhs => rw [← List.takeWhile_append_dropWhile (p := p) (l := l)]
  rw [List.append_assoc]
  congr 1
  unfold stripBoth
  conv_lhs => rw [← List.reverse_reverse (l.dropWhile p)]
  conv_lhs =>
    rw [← List.takeWhile_append_dropWhile (p := p) (l := (l.dropWhile p).reverse)]
  rw [List.reverse_append]

/-- C7: a raw line with no occurrence of two consecutive spaces fails
line tokenization with the malformed-line error (the timestamp/event
separator split has nothing to split on). -/
theorem c7_no_sep_malformed :
    ∀ line : String, hasSep line.data = false →
      from_log_line line = .error .malformedLine := by
  intro line h
  have hnone : splitSepOnce (stripBoth pyIsSpace line.data) = none := by
    cases hs : splitSepOnce (stripBoth pyIsSpace line.data) with
    | none => rfl
    | some ab =>
      obtain ⟨a, b⟩ := ab
      obtain ⟨l1, l2, hinf⟩ := stripBoth_middle pyIsSpace line.data
      have heq := splitSepOnce_some_eq _ a b hs
      have htrue : hasSep line.data = true := by
        refine (hasSep_exists _).mpr ⟨l1 ++ a, b ++ l2, ?_⟩
        rw [hinf, heq]
        simp
      rw [htrue] at h
      cases h
  simp [from_log_line, tokenizeLine, hnone]

/-- Witness for C7: a line whose timestamp and event section are
separated by a single space only. -/
theorem c7_witness :
    from_log_line "4/21 20:19:34.123 UNIT_DIED,a,b" = .error .malformedLine :=
  c7_no_sep_malformed _ (by decide)

/-- C8: a line whose event section tokenizes into fewer than seven fields
produces, without raising, the degraded record holding only timestamp and
event name (default actors, no params); a line with at least seven fields
that builds successfully always carries non-null source and dest actors. -/
theorem c8_record_building :
    (∀ (line : String) (ts : Int) (p0 : String) (rest : List String),
      tokenizeLine line = .ok (ts, p0 :: rest) → (p0 :: rest).length < 7 →
      from_log_line line = .ok ⟨ts, pyStrip p0, none, none, []⟩)
    ∧ (∀ (line : String) (ts : Int) (parts : List String) (ev : CombatLogEvent),
      tokenizeLine line = .ok (ts, parts) → 7 ≤ parts.length →
      from_log_line line = .ok ev → ev.source ≠ none ∧ ev.dest ≠ none) := by
  constructor
  · intro line ts p0 rest h hlen
    have hb : from_log_line line = buildEvent ts (p0 :: rest) := by
      simp [from_log_line, h]
    rw [hb]
    rcases rest with _ | ⟨f1, rest⟩
    · rfl
    rcases rest with _ | ⟨f2, rest⟩
    · rfl
    rcases rest with _ | ⟨f3, rest⟩
    · rfl
    rcases rest with _ | ⟨f4, rest⟩
    · rfl
    rcases rest with _ | ⟨f5, rest⟩
    · rfl
    rcases rest with _ | ⟨f6, rest⟩
    · rfl
    · simp only [List.length_cons] at hlen; omega
  · intro line ts parts ev h hlen hev
    have hb : from_log_line line = buildEvent ts parts := by
      simp [from_log_line, h]
    rw [hb] at hev
    rcases parts with _ | ⟨p0, rest⟩
    · simp only [List.length_nil] at hlen; omega
    rcases rest with _ | ⟨f1, rest⟩
    · simp only [List.length_cons, List.length_nil] at hlen; omega
    rcases rest with _ | ⟨f2, rest⟩
    · simp only [List.length_cons, List.length_nil] at hlen; omega
    rcases rest with _ | ⟨f3, rest⟩
    · simp only [List.length_cons, List.length_nil] at hlen; omega
    rcases rest with _ | ⟨f4, rest⟩
    · simp only [List.length_cons, List.length_nil] at hlen; omega
    rcases rest with _ | ⟨f5, rest⟩
    · simp only [List.length_cons, List.length_nil] at hlen; omega
    rcases rest with _ | ⟨f6, ps⟩
    · simp only [List.length_cons, List.length_nil] at hlen; omega
    simp only [buildEvent] at hev
    cases h1 : mkUnit (stripQuotes f1) (stripQuotes f2) (stripQuotes f3) with
    | error e => simp [h1] at hev
    | ok src =>
      cases h2 : mkUnit (stripQuotes f4) (stripQuotes f5) (stripQuotes f6) with
      | error e => simp [h1, h2] at hev
      | ok dst =>
        simp only [h1, h2, Except.ok.injEq] at hev
        rw [← hev]
        simp

/-- Witness for C8: one short line (three fields) yielding the degraded
record, and one full line yielding both actors. -/
theorem c8_witness :
    from_log_line "4/21 20:19:34.123  UNIT_DIED,a,b" =
      .ok ⟨9577174123, "UNIT_DIED", none, none, []⟩
    ∧ ((⟨9577174123, "SPELL_DAMAGE", some ⟨"P1", "Foo", 0x511⟩,
          some ⟨"C2", "Dummy", 0x10a48⟩, ["12345", "Fireball", "0x4"]⟩ :
            CombatLogEvent).source ≠ none
        ∧ (⟨9577174123, "SPELL_DAMAGE", some ⟨"P1", "Foo", 0x511⟩,
          some ⟨"C2", "Dummy", 0x10a48⟩, ["12345", "Fireball", "0x4"]⟩ :
            CombatLogEvent).dest ≠ none) :=
  ⟨c8_record_building.1 "4/21 20:19:34.123  UNIT_DIED,a,b" 9577174123 "UNIT_DIED"
      ["a", "b"] (by rfl) (by decide),
   c8_record_building.2
      "4/21 20:19:34.123  SPELL_DAMAGE,P1,\"Foo\",0x511,C2,\"Dummy\",0x10a48,12345,\"Fireball\",0x4"
      9577174123
      ["SPELL_DAMAGE", "P1", "Foo", "0x511", "C2", "Dummy", "0x10a48", "12345", "Fireball", "0x4"]
      ⟨9577174123, "SPELL_DAMAGE", some ⟨"P1", "Foo", 0x511⟩,
        some ⟨"C2", "Dummy", 0x10a48⟩, ["12345", "Fireball", "0x4"]⟩
      (by rfl) (by decide) (by rfl)⟩

/-- The fold used by max(xs, key=len) returns its seed or a list element. -/
theorem foldl_pick_mem (xs : List String) (x : String) :
    xs.foldl (fun acc y => if acc.length < y.length then y else acc) x = x ∨
      xs.foldl (fun acc y => if acc.length < y.length then y else acc) x ∈ xs := by
  induction xs generalizing x with
  | nil => exact Or.inl rfl
  | cons y ys ih =>
    simp only [List.foldl_cons]
    by_cases hxy : x.length < y.length
    · rw [if_pos hxy]
      rcases ih y with h | h
      · exact Or.inr (by rw [h]; exact List.mem_cons_self _ _)
      · exact Or.inr (List.mem_cons_of_mem _ h)
    · rw [if_neg hxy]
      rcases ih x with h | h
      · exact Or.inl h
      · exact Or.inr (List.mem_cons_of_mem _ h)

/-- The fold used by max(xs, key=len) dominates its seed and every
list element in length. -/
theorem foldl_pick_ge (xs : List String) (x : String) :
    x.length ≤ (xs.foldl (fun acc y => if acc.length < y.length then y else acc) x).length ∧
      ∀ q ∈ xs,
        q.length ≤ (xs.foldl (fun acc y => if acc.length < y.length then y else acc) x).length := by
  induction xs generalizing x with
  | nil => exact ⟨Nat.le_refl _, by simp⟩
  | cons y ys ih =>
    simp only [List.foldl_cons]
    obtain ⟨h1, h2⟩ := ih (if x.length < y.length then y else x)
    have hstep : x.length ≤ (if x.length < y.length then y else x).length := by
      by_cases hxy : x.length < y.length
      · rw [if_pos hxy]; omega
      · rw [if_neg hxy]
    have hystep : y.length ≤ (if x.length < y.length then y else x).length := by
      by_cases hxy : x.length < y.length
      · rw [if_pos hxy]
      · rw [if_neg hxy]; omega
    refine ⟨Nat.le_trans hstep h1, ?_⟩
    intro q hq
    rcases List.mem_cons.mp hq with rfl | hq
    · exact Nat.le_trans hystep h1
    · exact h2 q hq

/-- pyMaxLen returns an element of the list that no other element
exceeds in length (Python max with key=len, first maximum on ties). -/
theorem pyMaxLen_spec (xs : List String) (x0 : String)
    (h : pyMaxLen xs = some x0) :
    x0 ∈ xs ∧ ∀ q ∈ xs, q.length ≤ x0.length := by
  cases xs with
  | nil => simp [pyMaxLen] at h
  | cons x t =>
    simp only [pyMaxLen, Option.some.injEq] at h
    subst h
    constructor
    · rcases foldl_pick_mem t x with h | h
      · rw [h]; exact List.mem_cons_self _ _
      · exact List.mem_cons_of_mem _ h
    · intro q hq
      obtain ⟨h1, h2⟩ := foldl_pick_ge t x
      rcases List.mem_cons.mp hq with rfl | hq
      · exact h1
      · exact h2 q hq

/-- A key present in a table's key list is found by lookupTbl. -/
theorem lookupTbl_mem {α : Type} (tbl : List (String × α)) (k : String)
    (h : k ∈ tbl.map Prod.fst) : ∃ v, lookupTbl tbl k = some v := by
  induction tbl with
  | nil => simp at h
  | cons p t ih =>
    by_cases hk : p.1 = k
    · exact ⟨p.2, by simp [lookupTbl, List.find?_cons_of_pos, hk]⟩
    · have hmem : k ∈ t.map Prod.fst := by
        simp only [List.map_cons, List.mem_cons] at h
        rcases h with h | h
        · exact absurd h.symm hk
        · exact h
      obtain ⟨v, hv⟩ := ih hmem
      refine ⟨v, ?_⟩
      simpa [lookupTbl, List.find?_cons_of_neg, hk] using hv

/-- C1: schema resolution collects the prefix keys that start the event
name and, when any exists, picks a longest one and pairs its field list
with the suffix lookup of the remainder (none when the suffix is absent,
with no fallback); the special table is consulted, by exact equality,
only when no prefix key matches; a fully failed resolution raises the
lookup error naming the event. SPELL_PERIODIC_DAMAGE resolves by prefix
SPELL_PERIODIC and suffix _DAMAGE, UNIT_DIED only via the special table,
and FOO_BAR_EVENT raises. -/
theorem c1_schema_resolution :
    ∀ e : String,
      (∀ p0, pyMaxLen (prefixKeyMatches e) = some p0 →
        p0 ∈ prefixKeyMatches e ∧ (∀ q ∈ prefixKeyMatches e, q.length ≤ p0.length) ∧
        ∃ pf, lookupTbl prefix_parsers p0 = some pf ∧
          resolveSchema e =
            (lookupTbl suffix_parsers (strDropN e p0.length)).map (fun sf => (pf, sf)))
      ∧ (prefixKeyMatches e = [] → resolveSchema e = lookupTbl special_parsers e)
      ∧ (∀ parsed0 params, resolveSchema e = none →
          parseCore e parsed0 params = .error (.lookupError e))
      ∧ (e = "SPELL_PERIODIC_DAMAGE" →
          prefixKeyMatches e = ["SPELL", "SPELL_PERIODIC"] ∧
          resolveSchema e = some (SpellParser, DamageParser))
      ∧ (e = "UNIT_DIED" →
          prefixKeyMatches e = [] ∧ resolveSchema e = some ([], []))
      ∧ (e = "FOO_BAR_EVENT" →
          resolveSchema e = none ∧ parseCore e [] [] = .error (.lookupError e)) := by
  intro e
  refine ⟨?_, ?_, ?_, ?_, ?_, ?_⟩
  · intro p0 h
    obtain ⟨hmem, hmax⟩ := pyMaxLen_spec _ _ h
    have hkey : p0 ∈ prefix_parsers.map Prod.fst := by
      have h2 := hmem
      unfold prefixKeyMatches at h2
      exact (List.mem_filter.mp h2).1
    obtain ⟨pf, hpf⟩ := lookupTbl_mem _ _ hkey
    refine ⟨hmem, hmax, pf, hpf, ?_⟩
    have hres : resolveSchema e =
        match lookupTbl prefix_parsers p0,
            lookupTbl suffix_parsers (strDropN e p0.length) with
        | some pf2, some sf => some (pf2, sf)
        | _, _ => none := by
      unfold resolveSchema
      rw [h]
    rw [hres, hpf]
    cases hv : lookupTbl suffix_parsers (strDropN e p0.length) <;> rfl
  · intro h0
    unfold resolveSchema
    rw [h0]
    rfl
  · intro parsed0 params hn
    simp [parseCore, hn]
  · rintro rfl
    exact ⟨by decide, by decide⟩
  · rintro rfl
    exact ⟨by decide, by decide⟩
  · rintro rfl
    exact ⟨by decide, by decide⟩

/-- Witness for C1 at the event name SPELL_PERIODIC_DAMAGE. -/
theorem c1_witness :
    prefixKeyMatches "SPELL_PERIODIC_DAMAGE" = ["SPELL", "SPELL_PERIODIC"] ∧
    resolveSchema "SPELL_PERIODIC_DAMAGE" = some (SpellParser, DamageParser) :=
  (c1_schema_resolution "SPELL_PERIODIC_DAMAGE").2.2.2.1 rfl

/-- Key membership in terms of the key list. -/
theorem dmem_iff (d : Pdict) (k : String) : dmem d k = true ↔ k ∈ d.map Prod.fst := by
  simp only [dmem, List.any_eq_true, List.mem_map, decide_eq_true_eq]

/-- Membership distributes over append. -/
theorem dmem_append (d1 d2 : Pdict) (k : String) :
    dmem (d1 ++ d2) k = (dmem d1 k || dmem d2 k) := by
  simp [dmem, List.any_append]

/-- Assigning a fresh key appends the binding. -/
theorem dset_fresh (d : Pdict) (k : String) (v : PValue) (h : dmem d k = false) :
    dset d k v = d ++ [(k, v)] := by
  simp [dset, h]

/-- Lookup in an append hits the left part when the key is there. -/
theorem dget_append_left (d1 d2 : Pdict) (k : String) (h : dmem d1 k = true) :
    dget (d1 ++ d2) k = dget d1 k := by
  induction d1 with
  | nil => simp [dmem] at h
  | cons p t ih =>
    by_cases hp : p.1 = k
    · simp [dget, List.find?_cons_of_pos, hp]
    · have ht : dmem t k = true := by
        simp only [dmem, List.any_cons, Bool.or_eq_true, decide_eq_true_eq] at h
        rcases h with h | h
        · exact absurd h hp
        · exact h
      have := ih ht
      simpa [dget, List.find?_cons_of_neg, hp] using this

/-- dict.pop removes every binding of the popped key. -/
theorem dmem_dpop_self (d : Pdict) (k : String) : dmem (dpop d k) k = false := by
  rw [Bool.eq_false_iff]
  intro h
  obtain ⟨p, hp, he⟩ := by
    simpa only [dmem, List.any_eq_true, decide_eq_true_eq] using h
  have := (List.mem_filter.mp hp).2
  simp only [decide_eq_true_eq] at this
  exact this he

/-- dict.pop leaves other keys alone (membership). -/
theorem dmem_dpop_ne (d : Pdict) (k k' : String) (h : k' ≠ k) :
    dmem (dpop d k) k' = dmem d k' := by
  induction d with
  | nil => rfl
  | cons p t ih =>
    by_cases hp : p.1 = k
    · have hstep : dpop (p :: t) k = dpop t k := by
        simp [dpop, List.filter, hp]
      have hpk' : ¬ p.1 = k' := fun he => h (by rw [← he, hp])
      rw [hstep, ih]
      simp [dmem, hpk']
    · have hstep : dpop (p :: t) k = p :: dpop t k := by
        simp [dpop, List.filter, hp]
      rw [hstep]
      simp only [dmem, List.any_cons]
      simp only [dmem] at ih
      rw [ih]

/-- dict.pop leaves other keys alone (lookup). -/
theorem dget_dpop_ne (d : Pdict) (k k' : String) (h : k' ≠ k) :
    dget (dpop d k) k' = dget d k' := by
  induction d with
  | nil => rfl
  | cons p t ih =>
    by_cases hp : p.1 = k
    · have hstep : dpop (p :: t) k = dpop t k := by
        simp [dpop, List.filter, hp]
      have hpk' : ¬ p.1 = k' := fun he => h (hp ▸ he ▸ rfl)
      rw [hstep, ih]
      simp [dget, List.find?_cons_of_neg, hpk']
    · have hstep : dpop (p :: t) k = p :: dpop t k := by
        simp [dpop, List.filter, hp]
      rw [hstep]
      by_cases hpk' : p.1 = k'
      · simp [dget, List.find?_cons_of_pos, hpk']
      · simp only [dget] at ih ⊢
        rw [List.find?_cons_of_neg _ (by simpa using hpk'),
          List.find?_cons_of_neg _ (by simpa using hpk')]
        exact ih

/-- Splitting a false cons membership. -/
theorem dmem_cons_false (p : String × PValue) (t : Pdict) (k : String)
    (h : dmem (p :: t) k = false) : ¬ p.1 = k ∧ dmem t k = false := by
  simp only [dmem, List.any_cons, Bool.or_eq_false_iff, decide_eq_false_iff_not] at h
  exact ⟨h.1, by simp only [dmem]; exact h.2⟩

/-- Splitting a true cons membership. -/
theorem dmem_cons_true (p : String × PValue) (t : Pdict) (k : String)
    (h : dmem (p :: t) k = true) : p.1 = k ∨ dmem t k = true := by
  simp only [dmem, List.any_cons, Bool.or_eq_true, decide_eq_true_eq] at h
  exact h

/-- A key that is absent has no binding. -/
theorem dget_eq_none_of_not_mem (d : Pdict) (k : String) (h : dmem d k = false) :
    dget d k = none := by
  induction d with
  | nil => rfl
  | cons p t ih =>
    obtain ⟨h1, h2⟩ := dmem_cons_false p t k h
    simp only [dget]
    rw [List.find?_cons_of_neg _ (by simpa using h1)]
    exact ih h2

/-- Lookup in an append skips a left part without the key. -/
theorem dget_append_right (d1 d2 : Pdict) (k : String) (h : dmem d1 k = false) :
    dget (d1 ++ d2) k = dget d2 k := by
  induction d1 with
  | nil => rfl
  | cons p t ih =>
    obtain ⟨h1, h2⟩ := dmem_cons_false p t k h
    simp only [List.cons_append, dget] at ih ⊢
    rw [List.find?_cons_of_neg _ (by simpa using h1)]
    exact ih h2

/-- The in-place update map of dset keeps the key present and stores the
new value. -/
theorem dget_mapset (d : Pdict) (k : String) (v : PValue) (h : dmem d k = true) :
    dget (d.map (fun p => if p.1 = k then (k, v) else p)) k = some v := by
  induction d with
  | nil => simp [dmem] at h
  | cons p t ih =>
    by_cases hp : p.1 = k
    · simp only [List.map_cons, if_pos hp]
      simp [dget, List.find?_cons_of_pos]
    · have ht : dmem t k = true := by
        rcases dmem_cons_true p t k h with h1 | h1
        · exact absurd h1 hp
        · exact h1
      simp only [List.map_cons, if_neg hp]
      simp only [dget] at ih ⊢
      rw [List.find?_cons_of_neg _ (by simpa using hp)]
      exact ih ht

/-- The in-place update map of dset does not change which other keys are
present. -/
theorem dmem_mapset_ne (d : Pdict) (k : String) (v : PValue) (k' : String)
    (h : k' ≠ k) :
    dmem (d.map (fun p => if p.1 = k then (k, v) else p)) k' = dmem d k' := by
  induction d with
  | nil => rfl
  | cons p t ih =>
    simp only [List.map_cons, dmem, List.any_cons] at ih ⊢
    rw [ih]
    by_cases hp : p.1 = k
    · rw [if_pos hp]
      have e1 : (decide ((k, v).1 = k')) = false := by
        simp only [decide_eq_false_iff_not]
        exact fun he => h he.symm
      have e2 : (decide (p.1 = k')) = false := by
        simp only [decide_eq_false_iff_not]
        rw [hp]
        exact fun he => h he.symm
      rw [e1, e2]
    · rw [if_neg hp]

/-- The in-place update map of dset does not change other bindings. -/
theorem dget_mapset_ne (d : Pdict) (k : String) (v : PValue) (k' : String)
    (h : k' ≠ k) :
    dget (d.map (fun p => if p.1 = k then (k, v) else p)) k' = dget d k' := by
  induction d with
  | nil => rfl
  | cons p t ih =>
    simp only [List.map_cons]
    by_cases hpk' : p.1 = k'
    · have hpk : ¬ p.1 = k := fun he => h (hpk' ▸ he ▸ rfl)
      rw [if_neg hpk]
      simp [dget, List.find?_cons_of_pos, hpk']
    · have hmk' : ¬ (if p.1 = k then (k, v) else p).1 = k' := by
        by_cases hp : p.1 = k
        · rw [if_pos hp]
          exact fun he => h he.symm
        · rw [if_neg hp]
          exact hpk'
      simp only [dget] at ih ⊢
      rw [List.find?_cons_of_neg _ (by simpa using hmk'),
        List.find?_cons_of_neg _ (by simpa using hpk')]
      exact ih

/-- Assignment makes the key present. -/
theorem dmem_dset_self (d : Pdict) (k : String) (v : PValue) :
    dmem (dset d k v) k = true := by
  unfold dset
  by_cases h : dmem d k
  · rw [if_pos h]
    obtain ⟨p, hp, he⟩ := by
      simpa only [dmem, List.any_eq_true, decide_eq_true_eq] using h
    simp only [dmem, List.any_eq_true, decide_eq_true_eq]
    exact ⟨(k, v), List.mem_map.mpr ⟨p, hp, by simp [he]⟩, rfl⟩
  · rw [if_neg h]
    simp [dmem]

/-- Assignment stores the value under the key. -/
theorem dget_dset_self (d : Pdict) (k : String) (v : PValue) :
    dget (dset d k v) k = some v := by
  unfold dset
  by_cases h : dmem d k
  · rw [if_pos h]
    exact dget_mapset d k v h
  · rw [if_neg h]
    rw [dget_append_right d [(k, v)] k (by simpa using h)]
    simp [dget, List.find?_cons_of_pos]

/-- Assignment leaves other keys alone (membership). -/
theorem dmem_dset_ne (d : Pdict) (k : String) (v : PValue) (k' : String)
    (h : k' ≠ k) : dmem (dset d k v) k' = dmem d k' := by
  unfold dset
  by_cases h2 : dmem d k
  · rw [if_pos h2]
    exact dmem_mapset_ne d k v k' h
  · rw [if_neg h2, dmem_append]
    have e1 : dmem [(k, v)] k' = false := by
      simp only [dmem, List.any_cons, List.any_nil, Bool.or_false,
        decide_eq_false_iff_not]
      exact fun he => h he.symm
    rw [e1, Bool.or_false]

/-- Assignment leaves other keys alone (lookup). -/
theorem dget_dset_ne (d : Pdict) (k : String) (v : PValue) (k' : String)
    (h : k' ≠ k) : dget (dset d k v) k' = dget d k' := by
  unfold dset
  by_cases h2 : dmem d k
  · rw [if_pos h2]
    exact dget_mapset_ne d k v k' h
  · rw [if_neg h2]
    by_cases hmem : dmem d k'
    · exact dget_append_left d [(k, v)] k' hmem
    · rw [dget_append_right d [(k, v)] k' (by simpa using hmem),
        dget_eq_none_of_not_mem d k' (by simpa using hmem)]
      have e1 : (decide (k = k')) = false := by
        simp only [decide_eq_false_iff_not]
        exact fun he => h he.symm
      simp [dget, List.find?, e1]

/-- Structure of a successful zip loop: the consumed count is the length
of the shorter sequence, and the output dict is the input dict followed
by one fresh binding per consumed field, in field order. -/
theorem decodeLoop_ok (fields : Schema) (params : List String) (d0 : Pdict)
    (k0 : Nat) (d : Pdict) (k : Nat)
    (h : decodeLoop fields params d0 k0 = .ok (d, k)) :
    k = k0 + min fields.length params.length ∧
    ∃ tl : Pdict, d = d0 ++ tl ∧
      tl.map Prod.fst = (fields.take params.length).map Prod.fst := by
  induction fields generalizing params d0 k0 with
  | nil =>
    simp only [decodeLoop, Except.ok.injEq, Prod.mk.injEq] at h
    refine ⟨?_, [], ?_, by simp⟩
    · rw [← h.2]
      simp
    · rw [← h.1]
      simp
  | cons f fs ih =>
    obtain ⟨nm, c⟩ := f
    cases params with
    | nil =>
      simp only [decodeLoop, Except.ok.injEq, Prod.mk.injEq] at h
      refine ⟨?_, [], ?_, by simp⟩
      · rw [← h.2]
        simp
      · rw [← h.1]
        simp
    | cons p ps =>
      simp only [decodeLoop] at h
      by_cases hm : dmem d0 nm = true
      · rw [if_pos hm] at h
        cases h
      · rw [if_neg hm] at h
        cases hc : applyCaster c p with
        | error e =>
          rw [hc] at h
          cases h
        | ok v =>
          rw [hc] at h
          obtain ⟨hk, tl, hd1, hkeys⟩ := ih ps (dset d0 nm v) (k0 + 1) h
          rw [dset_fresh _ _ _ (by simpa using hm)] at hd1
          refine ⟨?_, (nm, v) :: tl, ?_, ?_⟩
          · simp only [List.length_cons, Nat.succ_min_succ]
            omega
          · rw [hd1, List.append_assoc]
            rfl
          · simp only [List.length_cons, List.take_succ_cons, List.map_cons]
            rw [hkeys]

/-- C2: positional decoding is a zip stopping at the shorter sequence.
When decoding succeeds with the reserved key absent from the field
names: the reserved params key is present exactly when raw params were
left unconsumed; its value is then exactly the tail of params beyond the
declared fields, in original order; every field paired with a param is
produced; and fields beyond the supplied params are not produced. -/
theorem c2_zip_leftover :
    ∀ (fields : Schema) (parsed0 : Pdict) (params : List String) (d : Pdict),
      decodeParams fields parsed0 params = .ok d →
      "params" ∉ fields.map Prod.fst →
      ((dmem d "params" = true) ↔ fields.length < params.length)
      ∧ (fields.length < params.length →
          dget d "params" = some (.strList (params.drop fields.length)))
      ∧ (∀ nm, nm ∈ (fields.take params.length).map Prod.fst → dmem d nm = true)
      ∧ (∀ nm, nm ∈ (fields.drop params.length).map Prod.fst →
          dmem parsed0 nm = false → nm ∉ (fields.take params.length).map Prod.fst →
          dmem d nm = false) := by
  intro fields parsed0 params d h hnp
  unfold decodeParams at h
  cases hl : decodeLoop fields params parsed0 0 with
  | error e =>
    rw [hl] at h
    cases h
  | ok dk =>
    obtain ⟨d1, k⟩ := dk
    rw [hl] at h
    simp only [Except.ok.injEq] at h
    obtain ⟨hk, tl, hd1, hkeys⟩ := decodeLoop_ok fields params parsed0 0 d1 k hl
    simp only [Nat.zero_add] at hk
    have keysub : ∀ nm, nm ∈ (fields.take params.length).map Prod.fst →
        nm ∈ fields.map Prod.fst := by
      intro nm hmem
      exact List.map_subset Prod.fst (List.take_subset _ _) hmem
    have keysubd : ∀ nm, nm ∈ (fields.drop params.length).map Prod.fst →
        nm ∈ fields.map Prod.fst := by
      intro nm hmem
      exact List.map_subset Prod.fst (List.drop_subset _ _) hmem
    by_cases hlen : fields.length < params.length
    · have hkf : k = fields.length := by omega
      have hne : (params.drop k).isEmpty = false := by
        rw [List.isEmpty_eq_false_iff_exists_mem]
        have hnonnil : params.drop k ≠ [] := by
          intro hnil
          have := List.drop_eq_nil_iff.mp hnil
          omega
        exact List.exists_mem_of_ne_nil _ hnonnil
      rw [← h]
      unfold finishParams
      rw [hne]
      simp only [Bool.false_eq_true, if_false]
      refine ⟨?_, ?_, ?_, ?_⟩
      · simp [dmem_dset_self, hlen]
      · intro _
        rw [hkf, dget_dset_self]
      · intro nm hmem
        have hne2 : nm ≠ "params" := fun he => hnp (he ▸ keysub nm hmem)
        rw [dmem_dset_ne _ _ _ _ hne2, hd1, dmem_append]
        have htl : dmem tl nm = true := by
          rw [dmem_iff, hkeys]
          exact hmem
        simp [htl]
      · intro nm hmem
        rw [List.drop_eq_nil_of_le (by omega)] at hmem
        simp at hmem
    · have hkp : k = params.length := by omega
      have hemp : (params.drop k).isEmpty = true := by
        rw [List.isEmpty_iff, List.drop_eq_nil_iff]
        omega
      rw [← h]
      unfold finishParams
      rw [hemp]
      simp only [if_true]
      refine ⟨?_, ?_, ?_, ?_⟩
      · simp only [dmem_dpop_self, Bool.false_eq_true, false_iff]
        omega
      · intro hcon
        omega
      · intro nm hmem
        have hne2 : nm ≠ "params" := fun he => hnp (he ▸ keysub nm hmem)
        rw [dmem_dpop_ne _ _ _ hne2, hd1, dmem_append]
        have htl : dmem tl nm = true := by
          rw [dmem_iff, hkeys]
          exact hmem
        simp [htl]
      · intro nm hmemd hm0 hmt
        have hne2 : nm ≠ "params" := fun he => hnp (he ▸ keysubd nm hmemd)
        rw [dmem_dpop_ne _ _ _ hne2, hd1, dmem_append, hm0]
        have htl : dmem tl nm = false := by
          rw [Bool.eq_false_iff]
          intro habs
          exact hmt (by rw [← hkeys]; exact (dmem_iff tl nm).mp habs)
        simp [htl]

/-- Witness for C2: three fields with five params leave the last two
under the reserved key in order; five fields with three params produce no
reserved key. -/
theorem c2_witness :
    ((dmem [("spellId", PValue.int 1), ("spellName", .str "a"),
        ("spellSchool", .school 4), ("params", .strList ["p4", "p5"])] "params" = true)
      ↔ SpellParser.length < (["1", "a", "0x4", "p4", "p5"] : List String).length)
    ∧ dget [("spellId", PValue.int 1), ("spellName", .str "a"),
        ("spellSchool", .school 4), ("params", .strList ["p4", "p5"])] "params" =
        some (.strList ["p4", "p5"])
    ∧ ((dmem [("amount", PValue.int 1), ("overkill", .int 2), ("school", .school 4)]
        "params" = true)
      ↔ (DamageParser.take 5).length < (["1", "2", "0x4"] : List String).length) := by
  have h1 := c2_zip_leftover SpellParser [] ["1", "a", "0x4", "p4", "p5"]
    [("spellId", .int 1), ("spellName", .str "a"), ("spellSchool", .school 4),
     ("params", .strList ["p4", "p5"])] (by rfl) (by decide)
  have h2 := c2_zip_leftover (DamageParser.take 5) []
    ["1", "2", "0x4"]
    [("amount", .int 1), ("overkill", .int 2), ("school", .school 4)]
    (by rfl) (by decide)
  refine ⟨h1.1, ?_, h2.1⟩
  have h3 := h1.2.1 (by decide)
  simpa using h3

/-- A zip loop over concatenated field lists runs the first list to
completion (when it consumed one param per field) and continues with the
second list on the remaining params. -/
theorem decodeLoop_append (fs1 fs2 : Schema) (ps : List String) (d0 : Pdict)
    (k0 : Nat) (d1 : Pdict)
    (hle : fs1.length ≤ ps.length)
    (h : decodeLoop fs1 (ps.take fs1.length) d0 k0 = .ok (d1, k0 + fs1.length)) :
    decodeLoop (fs1 ++ fs2) ps d0 k0 =
      decodeLoop fs2 (ps.drop fs1.length) d1 (k0 + fs1.length) := by
  induction fs1 generalizing ps d0 k0 with
  | nil =>
    simp only [List.length_nil, List.take_zero, decodeLoop, Except.ok.injEq,
      Prod.mk.injEq, Nat.add_zero] at h
    simp only [List.nil_append, List.length_nil, List.drop_zero, Nat.add_zero]
    rw [h.1]
  | cons f fs ih =>
    obtain ⟨nm, c⟩ := f
    cases ps with
    | nil => simp at hle
    | cons p pst =>
      simp only [List.length_cons, List.take_succ_cons, decodeLoop] at h
      simp only [List.cons_append, List.length_cons, List.drop_succ_cons, decodeLoop]
      by_cases hm : dmem d0 nm = true
      · rw [if_pos hm] at h
        cases h
      · rw [if_neg hm] at h ⊢
        cases hc : applyCaster c p with
        | error e =>
          rw [hc] at h
          cases h
        | ok v =>
          rw [hc] at h
          have hle2 : fs.length ≤ pst.length := by
            simp only [List.length_cons] at hle
            omega
          have h2 : decodeLoop fs (pst.take fs.length) (dset d0 nm v) (k0 + 1) =
              .ok (d1, k0 + 1 + fs.length) := by
            rw [show k0 + 1 + fs.length = k0 + (fs.length + 1) by omega]
            exact h
          have h3 := ih pst (dset d0 nm v) (k0 + 1) hle2 h2
          show decodeLoop (fs ++ fs2) pst (dset d0 nm v) (k0 + 1) =
            decodeLoop fs2 (pst.drop fs.length) d1 (k0 + (fs.length + 1))
          rw [h3]
          congr 1
          omega

/-- C4: if the field name about to be assigned already exists in the
output dict, decoding fails with the duplicate-field error at that first
repeated key; existing bindings are never silently overwritten by a
successful decode; and a synthetic schema repeating a field name across
its prefix-part and suffix-part raises the duplicate-field error. -/
theorem c4_duplicate_detection :
    (∀ (pre : Schema) (nm : String) (c : CasterTag) (post : Schema)
        (parsed0 : Pdict) (params : List String) (d1 : Pdict),
      decodeLoop pre (params.take pre.length) parsed0 0 = .ok (d1, pre.length) →
      pre.length < params.length →
      dmem d1 nm = true →
      decodeParams (pre ++ (nm, c) :: post) parsed0 params =
        .error (.duplicateField nm))
    ∧ (∀ (fields : Schema) (parsed0 : Pdict) (params : List String) (d : Pdict)
        (key : String),
      decodeParams fields parsed0 params = .ok d →
      dmem parsed0 key = true → key ≠ "params" →
      dget d key = dget parsed0 key)
    ∧ decodeParams (SpellParser ++ SpellParser) []
        ["1", "a", "0x4", "2", "b", "0x8"] = .error (.duplicateField "spellId") := by
  refine ⟨?_, ?_, by rfl⟩
  · intro pre nm c post parsed0 params d1 hpre hlen hdup
    unfold decodeParams
    have happ := decodeLoop_append pre ((nm, c) :: post) params parsed0 0 d1
      (by omega) (by simpa using hpre)
    rw [happ]
    obtain ⟨q, qs, hq⟩ : ∃ q qs, params.drop pre.length = q :: qs := by
      cases hd : params.drop pre.length with
      | nil =>
        exfalso
        have := List.drop_eq_nil_iff.mp hd
        omega
      | cons q qs => exact ⟨q, qs, rfl⟩
    rw [hq]
    simp only [decodeLoop]
    rw [if_pos hdup]
  · intro fields parsed0 params d key h hkey hne
    unfold decodeParams at h
    cases hl : decodeLoop fields params parsed0 0 with
    | error e =>
      rw [hl] at h
      cases h
    | ok dk =>
      obtain ⟨d1, k⟩ := dk
      rw [hl] at h
      simp only [Except.ok.injEq] at h
      obtain ⟨hk, tl, hd1, hkeys⟩ := decodeLoop_ok fields params parsed0 0 d1 k hl
      rw [← h]
      unfold finishParams
      by_cases he : (params.drop k).isEmpty = true
      · rw [if_pos he, dget_dpop_ne _ _ _ hne, hd1, dget_append_left _ _ _ hkey]
      · rw [if_neg he, dget_dset_ne _ _ _ _ hne, hd1, dget_append_left _ _ _ hkey]

/-- Witness for C4: a one-field prefix-part and a suffix-part repeating
the same field name raise the duplicate-field error on the repeat. -/
theorem c4_witness :
    decodeParams ([("amount", CasterTag.cInt)] ++ ("amount", CasterTag.cInt) :: [])
      [] ["1", "2"] = .error (.duplicateField "amount") :=
  c4_duplicate_detection.1 [("amount", .cInt)] "amount" .cInt [] [] ["1", "2"]
    [("amount", .int 1)] (by rfl) (by decide) (by rfl)

/-- dropWhile is the identity when no element satisfies the predicate. -/
theorem dropWhile_eq_self_of (p : Char → Bool) (m : List Char)
    (h : ∀ c ∈ m, p c = false) : m.dropWhile p = m := by
  cases m with
  | nil => rfl
  | cons a t =>
    rw [List.dropWhile_cons, if_neg (by simp [h a (List.mem_cons_self a t)])]

/-- Stripping is the identity when no character matches. -/
theorem stripBoth_eq_self (p : Char → Bool) (l : List Char)
    (h : ∀ c ∈ l, p c = false) : stripBoth p l = l := by
  unfold stripBoth
  rw [dropWhile_eq_self_of p l h,
    dropWhile_eq_self_of p l.reverse (fun c hc => h c (List.mem_reverse.mp hc)),
    List.reverse_reverse]

/-- Splitting an all-digit cons. -/
theorem allDigits_cons (c : Char) (t : List Char) (h : allDigits (c :: t) = true) :
    (48 ≤ c.toNat ∧ c.toNat ≤ 57) ∧ allDigits t = true := by
  simp only [allDigits, List.all_cons, Bool.and_eq_true, decide_eq_true_eq] at h
  exact ⟨h.1, by simp only [allDigits]; exact h.2⟩

/-- Digits are not Python whitespace. -/
theorem digit_not_space (c : Char) (h : 48 ≤ c.toNat ∧ c.toNat ≤ 57) :
    pyIsSpace c = false := by
  simp only [pyIsSpace, Bool.or_eq_false_iff, decide_eq_false_iff_not]
  refine ⟨⟨⟨⟨⟨?_, ?_⟩, ?_⟩, ?_⟩, ?_⟩, ?_⟩ <;>
    exact fun he => by rw [he] at h; exact absurd h (by decide)

/-- No sign is consumed from an all-digit literal. -/
theorem readSign_digits (l : List Char) (h : allDigits l = true) :
    readSign l = (false, l) := by
  cases l with
  | nil => rfl
  | cons c t =>
    obtain ⟨hc, _⟩ := allDigits_cons c t h
    have h1 : ¬ c = '-' := fun he => by rw [he] at hc; exact absurd hc (by decide)
    have h2 : ¬ c = '+' := fun he => by rw [he] at hc; exact absurd hc (by decide)
    simp only [readSign, if_neg h1, if_neg h2]

/-- The digit-run scanner evaluates an all-digit tail as positional
base-ten accumulation. -/
theorem digitsGo_digits (l : List Char) (acc : Nat) (h : allDigits l = true) :
    digitsGo decVal 10 acc l =
      some (l.foldl (fun a c => a * 10 + (c.toNat - 48)) acc) := by
  induction l generalizing acc with
  | nil => rfl
  | cons c t ih =>
    obtain ⟨hc, ht⟩ := allDigits_cons c t h
    have hne : ¬ c = '_' := fun he => by rw [he] at hc; exact absurd hc (by decide)
    have hstep : digitsGo decVal 10 acc (c :: t) =
        (match decVal c with
          | some d => digitsGo decVal 10 (acc * 10 + d) t
          | none => none) := by
      rw [digitsGo.eq_def]
      simp only [hne, if_false, ite_false]
    rw [hstep, show decVal c = some (c.toNat - 48) from by simp [decVal, hc]]
    show digitsGo decVal 10 (acc * 10 + (c.toNat - 48)) t = _
    simp only [List.foldl_cons]
    exact ih (acc * 10 + (c.toNat - 48)) ht

/-- parseDigits on a nonempty all-digit literal yields its decimal value. -/
theorem parseDigits_digits (l : List Char) (h : allDigits l = true) (hne : l ≠ []) :
    parseDigits decVal 10 l = some (natDecimalVal l) := by
  cases l with
  | nil => exact absurd rfl hne
  | cons c t =>
    obtain ⟨hc, ht⟩ := allDigits_cons c t h
    simp only [parseDigits]
    rw [show decVal c = some (c.toNat - 48) from by simp [decVal, hc]]
    show digitsGo decVal 10 (c.toNat - 48) t = some (natDecimalVal (c :: t))
    rw [digitsGo_digits t (c.toNat - 48) ht]
    simp only [natDecimalVal, List.foldl_cons, Nat.zero_mul, Nat.zero_add]

/-- Base-0 parsing of a nonempty all-digit literal: rejected exactly when
it starts with the digit zero but has nonzero value. -/
theorem pyIntBase0L_digits (l : List Char) (h : allDigits l = true) (hne : l ≠ []) :
    pyIntBase0L l =
      if l.head? = some '0' ∧ natDecimalVal l ≠ 0 then none
      else some ((natDecimalVal l : Nat) : Int) := by
  have hsp : ∀ c ∈ l, pyIsSpace c = false := by
    intro c hc
    apply digit_not_space
    simp only [allDigits, List.all_eq_true, decide_eq_true_eq] at h
    exact h c hc
  have hstrip : stripBoth pyIsSpace l = l := stripBoth_eq_self _ _ hsp
  have hsign := readSign_digits l h
  simp only [pyIntBase0L, hstrip, hsign]
  cases l with
  | nil => exact absurd rfl hne
  | cons c t =>
    obtain ⟨hc, ht⟩ := allDigits_cons c t h
    by_cases hc0 : c = '0'
    · subst hc0
      cases t with
      | nil => decide
      | cons c2 rest =>
        obtain ⟨hc2, _⟩ := allDigits_cons c2 rest ht
        have hx : ¬ (c2 = 'x' ∨ c2 = 'X') := by
          rintro (he | he) <;> (rw [he] at hc2; exact absurd hc2 (by decide))
        have ho : ¬ (c2 = 'o' ∨ c2 = 'O') := by
          rintro (he | he) <;> (rw [he] at hc2; exact absurd hc2 (by decide))
        have hb : ¬ (c2 = 'b' ∨ c2 = 'B') := by
          rintro (he | he) <;> (rw [he] at hc2; exact absurd hc2 (by decide))
        simp only [pyIntBase0Body, if_pos rfl, if_neg hx, if_neg ho, if_neg hb]
        rw [parseDigits_digits _ h hne]
        by_cases hv : natDecimalVal ('0' :: c2 :: rest) = 0
        · simp [hv, applySign]
        · simp [hv, applySign]
    · cases t with
      | nil =>
        show (match parseDigits decVal 10 [c] with
          | some v => some (applySign false v)
          | none => none) = _
        rw [parseDigits_digits _ h hne]
        simp [applySign, hc0]
      | cons c2 rest =>
        simp only [pyIntBase0Body, if_neg hc0]
        rw [parseDigits_digits _ h hne]
        simp [applySign, hc0]

/-- Guid integer view of a nonempty all-digit id. -/
theorem toIntE_digits (s : String) (h : allDigits s.data = true)
    (hne : s.data ≠ []) :
    UnitGuid.toIntE s =
      if s.data.head? = some '0' ∧ natDecimalVal s.data ≠ 0 then none
      else some ((natDecimalVal s.data : Nat) : Int) := by
  have hsp : ∀ c ∈ s.data, pyIsSpace c = false := by
    intro c hc
    apply digit_not_space
    simp only [allDigits, List.all_eq_true, decide_eq_true_eq] at h
    exact h c hc
  unfold UnitGuid.toIntE
  rw [stripBoth_eq_self _ _ hsp]
  exact pyIntBase0L_digits s.data h hne

/-- C10 counterexample: the purely numeric leading-zero id "00" does not
raise internally - the base-0 conversion succeeds with value 0 - so the
universally quantified raising claim is false at this input. -/
theorem c10_counterexample :
    UnitGuid.toIntE "00" = some 0 ∧ UnitGuid.toIntE "00" ≠ none ∧
      UnitGuid.to_int "00" = 0 :=
  ⟨by rfl, by decide, by rfl⟩

/-- C10 (amended): base-0 semantics rejects all-digit id strings with a
leading zero and nonzero value, and to_int then returns 0; an all-digit
string with value zero (any number of zeros) parses successfully to 0;
all-digit strings without a leading zero parse to their decimal value;
and 0x / 0o / 0b prefixed literals return their numeric value. -/
theorem c10_leading_zero_semantics :
    (∀ s : String, allDigits s.data = true → s.data.head? = some '0' →
      natDecimalVal s.data ≠ 0 →
      UnitGuid.toIntE s = none ∧ UnitGuid.to_int s = 0)
    ∧ (∀ s : String, allDigits s.data = true → s.data.head? = some '0' →
      natDecimalVal s.data = 0 →
      UnitGuid.toIntE s = some 0 ∧ UnitGuid.to_int s = 0)
    ∧ (∀ s : String, allDigits s.data = true → s.data ≠ [] →
      s.data.head? ≠ some '0' →
      UnitGuid.toIntE s = some ((natDecimalVal s.data : Nat) : Int) ∧
        UnitGuid.to_int s = ((natDecimalVal s.data : Nat) : Int))
    ∧ UnitGuid.to_int "0x1f" = 31 ∧ UnitGuid.to_int "0o17" = 15
    ∧ UnitGuid.to_int "0b101" = 5 ∧ UnitGuid.to_int "123" = 123 := by
  refine ⟨?_, ?_, ?_, by rfl, by rfl, by rfl, by rfl⟩
  · intro s h hh hv
    have hne : s.data ≠ [] := by
      intro he
      rw [he] at hh
      cases hh
    have he := toIntE_digits s h hne
    rw [if_pos ⟨hh, hv⟩] at he
    exact ⟨he, by unfold UnitGuid.to_int; rw [he]⟩
  · intro s h hh hv
    have hne : s.data ≠ [] := by
      intro he
      rw [he] at hh
      cases hh
    have he := toIntE_digits s h hne
    rw [if_neg (by simp [hv])] at he
    rw [hv] at he
    exact ⟨by simpa using he, by unfold UnitGuid.to_int; rw [he]; simp⟩
  · intro s h hne hh
    have he := toIntE_digits s h hne
    rw [if_neg (by simp [hh])] at he
    exact ⟨he, by unfold UnitGuid.to_int; rw [he]⟩

/-- Witness for C10: 007 raises internally and falls back to 0, while 123
parses to its decimal value. -/
theorem c10_witness :
    (UnitGuid.toIntE "007" = none ∧ UnitGuid.to_int "007" = 0)
    ∧ (UnitGuid.toIntE "123" = some ((natDecimalVal "123".data : Nat) : Int) ∧
      UnitGuid.to_int "123" = ((natDecimalVal "123".data : Nat) : Int)) :=
  ⟨c10_leading_zero_semantics.1 "007" (by decide) (by decide) (by decide),
   c10_leading_zero_semantics.2.2.1 "123" (by decide) (by decide) (by decide)⟩

/-- Word characters are ASCII. -/
theorem wordChar_lt128 (c : Char) (h : isWordChar c = true) : c.toNat < 128 := by
  simp only [isWordChar, decide_eq_true_eq] at h
  omega

/-- Transfer of a decidable ASCII-wide character property to a concrete
ASCII character. -/
theorem asciiChar_prop (P : Char → Bool)
    (hall : ∀ n, n < 128 → P (Char.ofNat n) = true)
    (c : Char) (hc : c.toNat < 128) : P c = true := by
  have h := hall c.toNat hc
  rwa [Char.ofNat_toNat] at h

/-- upper() keeps word characters word characters. -/
theorem wordChar_toUpper (c : Char) (h : isWordChar c = true) :
    isWordChar c.toUpper = true := by
  have hlt := wordChar_lt128 c h
  have h2 := asciiChar_prop (fun c => !(isWordChar c) || isWordChar c.toUpper)
    (by decide) c hlt
  simpa [h] using h2

/-- Identifier-start characters are ASCII. -/
theorem identStart_lt128 (c : Char) (h : isIdentStart c = true) : c.toNat < 128 := by
  simp only [isIdentStart, decide_eq_true_eq] at h
  omega

/-- upper() keeps identifier-start characters identifier starts. -/
theorem identStart_toUpper (c : Char) (h : isIdentStart c = true) :
    isIdentStart c.toUpper = true := by
  have hlt := identStart_lt128 c h
  have h2 := asciiChar_prop (fun c => !(isIdentStart c) || isIdentStart c.toUpper)
    (by decide) c hlt
  simpa [h] using h2

/-- A non-digit word character may start an identifier. -/
theorem wordChar_not_digit_identStart (c : Char) (h : isWordChar c = true)
    (hd : ¬ (48 ≤ c.toNat ∧ c.toNat ≤ 57)) : isIdentStart c = true := by
  simp only [isWordChar, decide_eq_true_eq] at h
  simp only [isIdentStart, decide_eq_true_eq]
  omega

/-- Every character produced by the run-collapsing substitution is a word
character of the input or the inserted underscore. -/
theorem collapseRuns_mem :
    ∀ (l : List Char) (b : Bool), ∀ c ∈ collapseRuns l b,
      isWordChar c = true ∨ c = '_' := by
  intro l
  induction l with
  | nil =>
    intro b c hc
    simp [collapseRuns] at hc
  | cons a t ih =>
    intro b c hc
    simp only [collapseRuns] at hc
    by_cases ha : isWordChar a = true
    · rw [if_pos ha] at hc
      rcases List.mem_cons.mp hc with rfl | hc2
      · exact Or.inl ha
      · exact ih false c hc2
    · rw [if_neg ha] at hc
      cases b with
      | true => exact ih true c hc
      | false =>
        rcases List.mem_cons.mp hc with rfl | hc2
        · exact Or.inr rfl
        · exact ih true c hc2

/-- First step of the run-collapsing substitution on a cons. -/
theorem collapseRuns_shape (a : Char) (t : List Char) :
    (isWordChar a = true ∧ collapseRuns (a :: t) false = a :: collapseRuns t false)
    ∨ (isWordChar a = false ∧
        collapseRuns (a :: t) false = '_' :: collapseRuns t true) := by
  by_cases ha : isWordChar a = true
  · exact Or.inl ⟨ha, by simp only [collapseRuns, if_pos ha]⟩
  · exact Or.inr ⟨by simpa using ha, by simp only [collapseRuns, if_neg ha]⟩

/-- All characters of the upper-cased substitution result are word
characters. -/
theorem collapse_upper_all_word (l : List Char) (b : Bool) :
    ((collapseRuns l b).map Char.toUpper).all isWordChar = true := by
  rw [List.all_eq_true]
  intro x hx
  obtain ⟨c, hc, rfl⟩ := List.mem_map.mp hx
  rcases collapseRuns_mem l b c hc with h | rfl
  · exact wordChar_toUpper c h
  · decide

/-- The transformed name of a nonempty ASCII value is always an
identifier: nonempty, starting with a letter or underscore, and made of
word characters. (Stated only for ASCII values: for non-ASCII values
CPython can keep Unicode word characters whose upper-cased transform
fails the identifier check and raises.) -/
theorem valueToNameRaw_ident (v : String) (_hascii : allAscii v = true)
    (hne : v.data ≠ []) :
    isPyIdent (valueToNameRaw v).data = true := by
  show isPyIdent ((if headIsDigit v.data then '_' :: collapseRuns v.data false
    else collapseRuns v.data false).map Char.toUpper) = true
  cases hv : v.data with
  | nil => exact absurd hv hne
  | cons a t =>
    by_cases hd : headIsDigit (a :: t) = true
    · rw [if_pos hd]
      simp only [List.map_cons, isPyIdent, Bool.and_eq_true]
      exact ⟨by decide, collapse_upper_all_word (a :: t) false⟩
    · rw [if_neg hd]
      have hd2 : ¬ (48 ≤ a.toNat ∧ a.toNat ≤ 57) := by
        simp only [headIsDigit, decide_eq_true_eq] at hd
        exact hd
      rcases collapseRuns_shape a t with ⟨ha, heq⟩ | ⟨ha, heq⟩
      · rw [heq]
        simp only [List.map_cons, isPyIdent, Bool.and_eq_true]
        refine ⟨identStart_toUpper a (wordChar_not_digit_identStart a ha hd2), ?_⟩
        exact collapse_upper_all_word t false
      · rw [heq]
        simp only [List.map_cons, isPyIdent, Bool.and_eq_true]
        exact ⟨by decide, collapse_upper_all_word t true⟩

/-- value_to_name succeeds on every nonempty ASCII value. -/
theorem value_to_name_some (v : String) (hascii : allAscii v = true)
    (hne : v.data ≠ []) :
    value_to_name v = some (valueToNameRaw v) := by
  unfold value_to_name
  rw [if_pos (valueToNameRaw_ident v hascii hne)]

/-- In a well-formed value-to-member map every found member carries the
looked-up value. -/
theorem assocFind_wf (M : EnumMap) (hwf : ∀ pr ∈ M, pr.2.value = pr.1)
    (v : String) (mem : EnumMember) (h : assocFind M v = some mem) :
    mem.value = v := by
  induction M with
  | nil => simp [assocFind] at h
  | cons p t ih =>
    by_cases hp : p.1 = v
    · have hfind : List.find? (fun q => decide (q.1 = v)) (p :: t) = some p :=
        List.find?_cons_of_pos _ (decide_eq_true hp)
      have h2 : some p.2 = some mem := by
        simpa only [assocFind, hfind, Option.map_some'] using h
      have h3 : p.2 = mem := Option.some.inj h2
      rw [← h3, hwf p (List.mem_cons_self p t)]
      exact hp
    · have hfind : List.find? (fun q => decide (q.1 = v)) (p :: t) =
          List.find? (fun q => decide (q.1 = v)) t :=
        List.find?_cons_of_neg _ (fun hd => hp (of_decide_eq_true hd))
      have ht : assocFind t v = some mem := by
        simpa only [assocFind, hfind] using h
      exact ih (fun pr hpr => hwf pr (List.mem_cons_of_mem p hpr)) ht

/-- Appending a fresh binding makes it findable. -/
theorem assocFind_append_some (M : EnumMap) (v : String) (mem : EnumMember)
    (h : assocFind M v = none) :
    assocFind (M ++ [(v, mem)]) v = some mem := by
  induction M with
  | nil =>
    have hfind : List.find? (fun q => decide (q.1 = v)) [(v, mem)] = some (v, mem) :=
      List.find?_cons_of_pos _ (decide_eq_true rfl)
    simp [assocFind, hfind]
  | cons p t ih =>
    by_cases hp : p.1 = v
    · exfalso
      have hfind : List.find? (fun q => decide (q.1 = v)) (p :: t) = some p :=
        List.find?_cons_of_pos _ (decide_eq_true hp)
      have h2 := h
      simp only [assocFind, hfind, Option.map_some'] at h2
      exact Option.some_ne_none _ h2
    · have hfind : List.find? (fun q => decide (q.1 = v)) (p :: t) =
          List.find? (fun q => decide (q.1 = v)) t :=
        List.find?_cons_of_neg _ (fun hd => hp (of_decide_eq_true hd))
      have ht : assocFind t v = none := by
        simpa only [assocFind, hfind] using h
      have hfind2 : List.find? (fun q => decide (q.1 = v)) (p :: (t ++ [(v, mem)])) =
          List.find? (fun q => decide (q.1 = v)) (t ++ [(v, mem)]) :=
        List.find?_cons_of_neg _ (fun hd => hp (of_decide_eq_true hd))
      show assocFind (p :: (t ++ [(v, mem)])) v = some mem
      simp only [assocFind, hfind2]
      simpa only [assocFind] using ih ht

/-- C5 counterexample: the empty string - an ASCII input, on which the
model is exact - is not a known tag of the miss-type caster, yet feeding
it does not synthesize a member: the transformed name is empty, not an
identifier, and the ValueError propagates, so the universally quantified
synthesis claim is false. -/
theorem c5_counterexample :
    allAscii "" = true ∧ assocFind missTypeMembers "" = none ∧
      pseudo_member missTypeMembers "" = none :=
  ⟨by decide, by decide, by decide⟩

/-- C5 (amended): for each of the four enumerated-tag casters, a known
tag string yields the fixed member whose display string equals the input
with the cache unchanged; a nonempty ASCII unknown tag string yields a
synthesized member named by the regex transform (uppercase, non-word
runs to underscore, leading digit guarded), and feeding the same unknown
string again returns the same cached member with the cache unchanged.
Tags outside the nonempty-ASCII domain can instead raise: the empty
string does (see the counterexample), and so can non-ASCII tags in
CPython, whose Unicode transform the ASCII model does not cover. -/
theorem c5_enum_roundtrip :
    ∀ (M : EnumMap) (v : String),
      (M = missTypeMembers ∨ M = auraTypeMembers ∨ M = failedTypeMembers ∨
        M = envTypeMembers) →
      (∀ mem, assocFind M v = some mem →
        pseudo_member M v = some (mem, M) ∧ mem.value = v)
      ∧ (assocFind M v = none → allAscii v = true → v.data ≠ [] →
        value_to_name v = some (valueToNameRaw v)
        ∧ pseudo_member M v =
            some (⟨valueToNameRaw v, v⟩, M ++ [(v, ⟨valueToNameRaw v, v⟩)])
        ∧ pseudo_member (M ++ [(v, ⟨valueToNameRaw v, v⟩)]) v =
            some (⟨valueToNameRaw v, v⟩, M ++ [(v, ⟨valueToNameRaw v, v⟩)])) := by
  intro M v hM
  constructor
  · intro mem h
    have hwf : ∀ pr ∈ M, pr.2.value = pr.1 := by
      rcases hM with rfl | rfl | rfl | rfl <;> decide
    exact ⟨by simp [pseudo_member, h], assocFind_wf M hwf v mem h⟩
  · intro h hascii hne
    have hv := value_to_name_some v hascii hne
    refine ⟨hv, by simp [pseudo_member, h, hv], ?_⟩
    have h2 := assocFind_append_some M v ⟨valueToNameRaw v, v⟩ h
    simp [pseudo_member, h2]

/-- Witness for C5: the known tag DODGE round-trips, and the unknown tag
"new tag!" synthesizes the cached member NEW_TAG_. -/
theorem c5_witness :
    (pseudo_member missTypeMembers "DODGE" =
        some (⟨"DODGE", "DODGE"⟩, missTypeMembers)
      ∧ EnumMember.value ⟨"DODGE", "DODGE"⟩ = "DODGE")
    ∧ (value_to_name "new tag!" = some (valueToNameRaw "new tag!")
      ∧ pseudo_member missTypeMembers "new tag!" =
          some (⟨valueToNameRaw "new tag!", "new tag!"⟩,
            missTypeMembers ++ [("new tag!", ⟨valueToNameRaw "new tag!", "new tag!"⟩)])
      ∧ pseudo_member
          (missTypeMembers ++ [("new tag!", ⟨valueToNameRaw "new tag!", "new tag!"⟩)])
          "new tag!" =
          some (⟨valueToNameRaw "new tag!", "new tag!"⟩,
            missTypeMembers ++ [("new tag!", ⟨valueToNameRaw "new tag!", "new tag!"⟩)])) :=
  ⟨(c5_enum_roundtrip missTypeMembers "DODGE" (Or.inl rfl)).1 ⟨"DODGE", "DODGE"⟩
      (by decide),
   (c5_enum_roundtrip missTypeMembers "new tag!" (Or.inl rfl)).2 (by decide) (by decide)
     (by decide)⟩

end Clp

